import Mathlib

set_option linter.unusedVariables false

/-!
Verification development for the istanbul-style coverage instrumentation
transformer (`swc-plugin-istanbul-oxi`).

The Rust sources embedded here are `src/lib.rs` (the plugin entry point, the
program-level visitor `CoverageVisitor`, the simple per-statement
`StmtVisitor`, and `should_ignore_file`) and `src/utils/visitor_macros.rs`
(the macro bodies that generate the main instrumentation visitors:
`cover_statement`, `replace_expr_with_counter`, `is_injected_counter_expr`,
`wrap_bin_expr_with_branch_counter`, `visit_mut_if_stmt`,
`visit_mut_bin_expr`, `insert_stmts_counter`, and friends).

Parts of the crate that are referenced but whose source files are not
available (the `istanbul_oxi_instrument` coverage-map crate, the span/range
utilities, the hint-comment scanner, the finder visitors, and the preamble
templates) are modelled from the specification; each such definition carries
a doc comment saying so.
-/

namespace CoverageInstr

/-! ## Spans, locations, ranges -/

/-- A byte-offset span of an AST node (`swc_common::Span`). -/
structure Span where
  lo : Nat
  hi : Nat
deriving DecidableEq, Repr

/-- `DUMMY_SP`: the span attached to synthesized (counter-injected) nodes. -/
def DUMMY_SP : Span := ⟨0, 0⟩

/-- A line/column position as returned by the source-map position service.
Lines are 1-based, columns 0-based. -/
structure Loc where
  line : Nat
  col : Nat
deriving DecidableEq, Repr

/-- A source range as stored in the coverage map
(`istanbul_oxi_instrument::Range`). Modelled from the spec: fields are
`startLine`, `startCol`, `endLine`, `endCol` in that order, and
`Range::new` takes them in that order. -/
structure Range where
  startLine : Nat
  startCol : Nat
  endLine : Nat
  endCol : Nat
deriving DecidableEq, Repr

/-- The spec invariant on source ranges:
`startLine < endLine ∨ (startLine = endLine ∧ startCol ≤ endCol)`. -/
def rangeInvariant (r : Range) : Prop :=
  r.startLine < r.endLine ∨ (r.startLine = r.endLine ∧ r.startCol ≤ r.endCol)

instance (r : Range) : Decidable (rangeInvariant r) := by
  unfold rangeInvariant; infer_instance

/-! ## The path hash and the coverage variable identifier

`lib.rs` hashes the file path with `std::collections::hash_map::DefaultHasher`,
which has a fixed (seedless) initial state, so it is a pure deterministic
function of the hashed bytes. The standard library hasher is external to this
repository; the spec says "any stable 64-bit hash suffices", so it is modelled
here by a deterministic 64-bit FNV-1a-style fold over the string's code
points, reduced mod 2^64. -/

/-- Modelled from the spec: a stable, deterministic 64-bit hash of a string,
standing in for `DefaultHasher` (external `std` code; the spec only requires
a stable 64-bit hash). The initial state is a fixed constant: the hasher
takes no seed, which is what makes the hash stable across runs. -/
def stdHash64 (s : String) : Nat :=
  s.data.foldl (fun h c => ((h ^^^ c.toNat) * 1099511628211) % (2 ^ 64))
    14695981039346656037

/-- Decimal rendering of a `Nat`, digit list form, with a structural fuel
parameter so that it evaluates by kernel reduction; fuel at least `1` plus
the digit count suffices. Models Rust's `format!` `Display` rendering of a
`u64`. -/
def natDecCharsAux : Nat → Nat → List Char
  | 0, _ => []
  | fuel + 1, n =>
    if n < 10 then [Char.ofNat (48 + n)]
    else natDecCharsAux fuel (n / 10) ++ [Char.ofNat (48 + n % 10)]

/-- Decimal rendering of a `Nat` (the number itself is always enough fuel). -/
def natDecChars (n : Nat) : List Char := natDecCharsAux (n + 1) n

/-- Decimal rendering of a `Nat` as a string. -/
def natDecStr (n : Nat) : String := ⟨natDecChars n⟩

/-- A single lowercase hexadecimal digit character. -/
def hexDigitChar (n : Nat) : Char :=
  if n < 10 then Char.ofNat (48 + n) else Char.ofNat (87 + n)

/-- Lowercase hexadecimal rendering of a `Nat`, digit list form, fuelled
like `natDecCharsAux`. Models Rust's `format!` `LowerHex` rendering of a
`u64`. -/
def natHexCharsAux : Nat → Nat → List Char
  | 0, _ => []
  | fuel + 1, n =>
    if n < 16 then [hexDigitChar n]
    else natHexCharsAux fuel (n / 16) ++ [hexDigitChar (n % 16)]

/-- Lowercase hexadecimal rendering of a `Nat`. -/
def natHexChars (n : Nat) : List Char := natHexCharsAux (n + 1) n

/-- Lowercase hexadecimal rendering of a `Nat` as a string. -/
def natHexStr (n : Nat) : String := ⟨natHexChars n⟩

/-- `CoverageVisitor::get_var_name_hash` from `lib.rs`: hash the name with
the default hasher and render `format!` `cov_` followed by the `u64` in its
default decimal `Display` form. -/
def get_var_name_hash (name : String) : String :=
  "cov_" ++ natDecStr (stdHash64 name)

/-- The coverage variable name as the spec's data-model section words it:
`cov_` followed by the 64-bit hash of the path rendered in hexadecimal.
This definition follows the spec's words and is compared against
`get_var_name_hash`, which is translated from the source. -/
def specCoverageVarNameHex (name : String) : String :=
  "cov_" ++ natHexStr (stdHash64 name)

/-! ## Configuration: JSON values and `InstrumentOptions` -/

/-- A JSON value, modelling `serde_json::Value`. -/
inductive Json where
  | null
  | bool (b : Bool)
  | num (n : Int)
  | str (s : String)
  | arr (elems : List Json)
  | obj (fields : List (String × Json))

/-- `value["key"]` on a `serde_json::Value`: looks the key up in an object,
yielding `Null` for missing keys and for non-object values. -/
def Json.index (j : Json) (key : String) : Json :=
  match j with
  | .obj fields => (fields.lookup key).getD .null
  | _ => .null

/-- `Value::as_str`. -/
def Json.as_str : Json → Option String
  | .str s => some s
  | _ => none

/-- `Value::as_bool`. -/
def Json.as_bool : Json → Option Bool
  | .bool b => some b
  | _ => none

/-- `InstrumentOptions` from `lib.rs`. -/
structure InstrumentOptions where
  coverage_variable : String
  compact : Bool
  report_logic : Bool
deriving DecidableEq, Repr

/-- The options-parsing part of `process` in `lib.rs`: each recognized option
is read with `as_str`/`as_bool` and falls back to its default via
`unwrap_or` when absent or of the wrong type. -/
def parseInstrumentOptions (v : Json) : InstrumentOptions :=
  { coverage_variable := ((v.index "coverageVariable").as_str).getD "__coverage__"
    compact := ((v.index "compact").as_bool).getD false
    report_logic := ((v.index "reportLogic").as_bool).getD false }

/-- The filename extraction in `process`: `context["filename"].as_str()`
with fallback `"unknown.js"`. -/
def processFilename (context : Json) : String :=
  ((context.index "filename").as_str).getD "unknown.js"

/-! ## The AST fragment

The fragment of the `swc` AST that the embedded visitors touch. Lists and
options of mutually recursive types are encoded as dedicated mutual
inductives so that all recursions are structural. Every node carries a
`Span`; synthesized nodes carry `DUMMY_SP`. -/

/-- Update operator (`UpdateOp`). -/
inductive UpdateOp where
  | plusPlus
  | minusMinus
deriving DecidableEq, Repr

/-- Binary operator; the three logical operators get branch treatment, the
rest are ordinary binary expressions. -/
inductive BinOp where
  | logicalOr
  | logicalAnd
  | nullish
  | add
  | lt
deriving DecidableEq, Repr

/-- Is this operator one of `||`, `&&`, `??`? -/
def BinOp.isLogical : BinOp → Bool
  | .logicalOr => true
  | .logicalAnd => true
  | .nullish => true
  | _ => false

mutual

inductive Expr where
  | lit (value : Nat) (sp : Span)
  | ident (name : String) (sp : Span)
  | call (callee : Expr) (args : ExprList) (sp : Span)
  | member (obj : Expr) (prop : MemberProp) (sp : Span)
  | update (op : UpdateOp) (pfx : Bool) (arg : Expr) (sp : Span)
  | paren (inner : Expr) (sp : Span)
  | seq (exprs : ExprList) (sp : Span)
  | bin (op : BinOp) (lhs : Expr) (rhs : Expr) (sp : Span)
  | fnExpr (body : StmtList) (bodySp : Span) (sp : Span)

inductive MemberProp where
  | propIdent (name : String)
  | computed (e : Expr)

inductive ExprList where
  | nil
  | cons (head : Expr) (tail : ExprList)

inductive OptExpr where
  | none
  | some (e : Expr)

inductive Stmt where
  | exprStmt (e : Expr) (sp : Span)
  | ret (arg : OptExpr) (sp : Span)
  | block (body : StmtList) (sp : Span)
  | ifStmt (test : Expr) (conseq : Stmt) (alt : OptStmt) (sp : Span)
  | varDecl (decls : DeclList) (sp : Span)

inductive OptStmt where
  | none
  | some (s : Stmt)

inductive StmtList where
  | nil
  | cons (head : Stmt) (tail : StmtList)

inductive DeclList where
  | nil
  | cons (init : OptExpr) (dsp : Span) (tail : DeclList)

end

/-- Append two statement lists. -/
def StmtList.app : StmtList → StmtList → StmtList
  | .nil, ys => ys
  | .cons x xs, ys => .cons x (xs.app ys)

/-- The span carried by an expression node. -/
def Expr.span : Expr → Span
  | .lit _ sp => sp
  | .ident _ sp => sp
  | .call _ _ sp => sp
  | .member _ _ sp => sp
  | .update _ _ _ sp => sp
  | .paren _ sp => sp
  | .seq _ sp => sp
  | .bin _ _ _ sp => sp
  | .fnExpr _ _ sp => sp

/-- The span carried by a statement node. -/
def Stmt.span : Stmt → Span
  | .exprStmt _ sp => sp
  | .ret _ sp => sp
  | .block _ sp => sp
  | .ifStmt _ _ _ sp => sp
  | .varDecl _ sp => sp

/-- Modelled from the spec (`get_expr_span` lives in a source file that is
not available): returns the expression's span, or `none` when the node is
synthetic (counter-injected), i.e. carries `DUMMY_SP`. -/
def getExprSpan (e : Expr) : Option Span :=
  if e.span = DUMMY_SP then none else some e.span

/-- Modelled from the spec (`get_stmt_span` source not available): same
contract as `getExprSpan` for statements. -/
def getStmtSpan (s : Stmt) : Option Span :=
  if s.span = DUMMY_SP then none else some s.span

/-! ## The coverage map (`istanbul_oxi_instrument::SourceCoverage`)

The `istanbul_oxi_instrument` crate's sources are not available; the map and
its operations are modelled from the spec's Coverage Map section:
`newStatement`/`newFunction`/`newBranch` append and return the 0-based
index, `addBranchPath` appends to the branch's `locations` and returns the
path index, `freeze` computes the content hash. -/

/-- `BranchType`. -/
inductive BranchType where
  | ifKind
  | binaryExpr
  | condExpr
  | switchKind
  | defaultArg
deriving DecidableEq, Repr

/-- A `fnMap` entry. -/
structure FnEntry where
  name : Option String
  decl : Range
  loc : Range
  lineCount : Nat
deriving DecidableEq, Repr

/-- A `branchMap` entry. -/
structure BranchEntry where
  btype : BranchType
  loc : Range
  locations : List Range
deriving DecidableEq, Repr

/-- The per-file coverage map. -/
structure Cov where
  path : String
  statementMap : List Range
  fnMap : List FnEntry
  branchMap : List BranchEntry
  report_logic : Bool
  covHash : Option String
deriving DecidableEq, Repr

/-- `SourceCoverage::new(path, report_logic)`. -/
def Cov.new (path : String) (reportLogic : Bool) : Cov :=
  ⟨path, [], [], [], reportLogic, none⟩

/-- `newStatement(range) → id`: appends, returns the 0-based index. -/
def Cov.new_statement (c : Cov) (r : Range) : Cov × Nat :=
  ({ c with statementMap := c.statementMap ++ [r] }, c.statementMap.length)

/-- `newFunction(name, declRange, bodyRange) → id`: appends;
`lineCount = bodyRange.endLine − bodyRange.startLine + 1`. -/
def Cov.new_function (c : Cov) (name : Option String) (decl body : Range) :
    Cov × Nat :=
  ({ c with fnMap := c.fnMap ++
      [⟨name, decl, body, body.endLine - body.startLine + 1⟩] },
   c.fnMap.length)

/-- `newBranch(kind, range, reportLogic) → id`: appends an entry with empty
`locations`. -/
def Cov.new_branch (c : Cov) (t : BranchType) (r : Range) (_reportLogic : Bool) :
    Cov × Nat :=
  ({ c with branchMap := c.branchMap ++ [⟨t, r, []⟩] }, c.branchMap.length)

/-- `addBranchPath(branchId, range) → pathIdx`: appends to
`branchMap[branchId].locations` and returns the path index. -/
def Cov.add_branch_path (c : Cov) (b : Nat) (r : Range) : Cov × Nat :=
  match c.branchMap[b]? with
  | Option.some e =>
      ({ c with branchMap :=
          c.branchMap.set b ⟨e.btype, e.loc, e.locations ++ [r]⟩ },
       e.locations.length)
  | Option.none => (c, 0)

/-- Serialize a range in the Istanbul JSON shape. Models `serde_json`
serialization (external crate): a deterministic rendering of the data. -/
def serializeRange (r : Range) : String :=
  "\x7b\"start\":\x7b\"line\":" ++ natDecStr r.startLine ++ ",\"column\":"
    ++ natDecStr r.startCol ++ "\x7d,\"end\":\x7b\"line\":"
    ++ natDecStr r.endLine ++ ",\"column\":" ++ natDecStr r.endCol
    ++ "\x7d\x7d"

/-- Serialize a list of ranges keyed by dense indices. -/
def serializeRangeMap (rs : List Range) : String :=
  "\x7b" ++ String.intercalate ","
    ((rs.enum.map fun p =>
      "\"" ++ natDecStr p.1 ++ "\":" ++ serializeRange p.2)) ++ "\x7d"

/-- Serialize the branch map. -/
def serializeBranchMap (bs : List BranchEntry) : String :=
  "\x7b" ++ String.intercalate ","
    ((bs.enum.map fun p =>
      "\"" ++ natDecStr p.1 ++ "\":\x7b\"loc\":" ++ serializeRange p.2.loc
        ++ ",\"locations\":[" ++
        String.intercalate "," (p.2.locations.map serializeRange)
        ++ "]\x7d")) ++ "\x7d"

/-- Serialize the function map. -/
def serializeFnMap (fs : List FnEntry) : String :=
  "\x7b" ++ String.intercalate ","
    ((fs.enum.map fun p =>
      "\"" ++ natDecStr p.1 ++ "\":\x7b\"decl\":" ++ serializeRange p.2.decl
        ++ ",\"loc\":" ++ serializeRange p.2.loc ++ ",\"line\":"
        ++ natDecStr p.2.lineCount ++ "\x7d")) ++ "\x7d"

/-- Canonical serialization of the map's shape (statementMap, fnMap,
branchMap), used by `freeze` for the content hash. Modelled from the spec. -/
def serializeCovShape (c : Cov) : String :=
  serializeRangeMap c.statementMap ++ serializeFnMap c.fnMap
    ++ serializeBranchMap c.branchMap

/-- `freeze()`: computes `hash` over a canonical encoding of the map's
shape. Modelled from the spec. -/
def Cov.freeze (c : Cov) : Cov :=
  { c with covHash := some (natHexStr (stdHash64 (serializeCovShape c))) }

/-- Full serialization of the coverage data, as attached to the trailing
comment (`serde_json::to_string(self.cov.as_ref())`, modelled). -/
def serializeCov (c : Cov) : String :=
  "\x7b\"path\":\"" ++ c.path ++ "\",\"statementMap\":"
    ++ serializeRangeMap c.statementMap
    ++ ",\"fnMap\":" ++ serializeFnMap c.fnMap
    ++ ",\"branchMap\":" ++ serializeBranchMap c.branchMap
    ++ ",\"hash\":\"" ++ c.covHash.getD "" ++ "\"\x7d"

/-! ## Counter expression builder

`lib.rs`'s `StmtVisitor::build_increase_expression` (present in the source)
builds the single-index counter `covFn().m[id]++`. The macro file calls
`crate::instrument::create_increase_expression_expr` with an optional second
index for branch counters; that file is not available, so the two-index form
is modelled from the spec's Counter Expression Builder section
(`optionally into .b[i] by a second integer`). Every piece of the built node
carries `DUMMY_SP`, as in the source. -/

/-- Build the counter expression `covFn().typeIdent[id]++`
(or `covFn().typeIdent[id][i]++` when the second index is given). -/
def create_increase_expression_expr (covFnIdent typeIdent : String)
    (id : Nat) (i : Option Nat) : Expr :=
  let callE : Expr := .call (.ident covFnIdent DUMMY_SP) .nil DUMMY_SP
  let m1 : Expr := .member callE (.propIdent typeIdent) DUMMY_SP
  let m2 : Expr := .member m1 (.computed (.lit id DUMMY_SP)) DUMMY_SP
  match i with
  | Option.none => .update .plusPlus false m2 DUMMY_SP
  | Option.some j =>
      .update .plusPlus false
        (.member m2 (.computed (.lit j DUMMY_SP)) DUMMY_SP) DUMMY_SP

/-- The counter wrapped as an expression statement (span `DUMMY_SP`). -/
def counterStmt (covFnIdent typeIdent : String) (id : Nat) (i : Option Nat) :
    Stmt :=
  .exprStmt (create_increase_expression_expr covFnIdent typeIdent id i) DUMMY_SP

/-! ## Injected-counter detection (`visitor_macros.rs`, lines 194-224) -/

/-- `is_injected_counter_expr`: an update expression whose argument is a
member of a member of a call whose callee is the coverage function
identifier. Note the source matches any update operator and both prefix and
postfix forms, and imposes nothing on the member props. In `swc`, the
identifier comparison `ident == &self.cov_fn_ident` compares symbol and
span; both sides are built from `Ident::new(name, DUMMY_SP)` clones, so it
reduces to name equality. -/
def is_injected_counter_expr (covFnIdent : String) (e : Expr) : Bool :=
  match e with
  | .update _ _ (.member (.member (.call (.ident name _) _ _) _ _) _ _) _ =>
      name = covFnIdent
  | _ => false

/-- `is_injected_counter_stmt`: an expression statement whose expression is
an injected counter. -/
def is_injected_counter_stmt (covFnIdent : String) (s : Stmt) : Bool :=
  match s with
  | .exprStmt e _ => is_injected_counter_expr covFnIdent e
  | _ => false

/-! ## The `istanbul ignore file` comment scanner (`lib.rs`) -/

/-- A comment attached to the program. -/
structure Comment where
  text : String
deriving DecidableEq, Repr

/-- The comment store (`PluginCommentsProxy`): leading/trailing comments by
byte position. `get_leading`/`get_trailing` returning `None` is modelled by
the empty list. -/
structure CommentStore where
  leading : Nat → List Comment
  trailing : Nat → List Comment

/-- Regex `\s` on ASCII input. -/
def isRegexWs (c : Char) : Bool :=
  c = ' ' || c = '\t' || c = '\n' || c = '\r' || c = '\x0b' || c = '\x0c'

/-- Regex `\w` on ASCII input: alphanumeric or underscore. -/
def isWordChar (c : Char) : Bool :=
  c.isAlphanum || c = '_'

/-- Strip an exact literal from the front of a character list. -/
def stripLit : List Char → List Char → Option (List Char)
  | [], rest => some rest
  | _ :: _, [] => none
  | c :: cs, d :: ds => if d = c then stripLit cs ds else none

/-- Require at least one whitespace character, then drop all of them
(regex `\s+`, greedy; the following literal starts with a non-whitespace
character so greediness is exact). -/
def dropWs1 : List Char → Option (List Char)
  | [] => none
  | c :: rest =>
      if isRegexWs c then some (rest.dropWhile isRegexWs) else none

/-- `COMMENT_FILE_REGEX.is_match(text)` for the anchored pattern
`^\s*istanbul\s+ignore\s+(file)(\W|$)`, executed directly on the
character list. -/
def matchIgnoreFileComment (text : String) : Bool :=
  (do
    let cs := text.data.dropWhile isRegexWs
    let cs ← stripLit "istanbul".data cs
    let cs ← dropWs1 cs
    let cs ← stripLit "ignore".data cs
    let cs ← dropWs1 cs
    let cs ← stripLit "file".data cs
    match cs with
    | [] => some ()
    | c :: _ => if isWordChar c then none else some ()).isSome

/-- `validate_comments`: any comment in the list matching the regex. -/
def validateComments (cs : List Comment) : Bool :=
  cs.any fun c => matchIgnoreFileComment c.text

/-- `should_ignore_file` from `lib.rs`: with a comment store present, check
leading and trailing comments at both the low and high position of the
program span; without a store, `false`. -/
def should_ignore_file (comments : Option CommentStore) (progSpan : Span) :
    Bool :=
  match comments with
  | Option.none => false
  | Option.some cs =>
      [cs.leading progSpan.lo, cs.leading progSpan.hi,
       cs.trailing progSpan.lo, cs.trailing progSpan.hi].any validateComments

/-! ## Position utilities -/

/-- `get_range_from_span` (source file not available; modelled from the
spec's Position Utilities section): the start line/column come from the
span's low offset, the end line/column from the high offset. -/
def get_range_from_span (lookup : Nat → Loc) (sp : Span) : Range :=
  ⟨(lookup sp.lo).line, (lookup sp.lo).col,
   (lookup sp.hi).line, (lookup sp.hi).col⟩

/-- `StmtVisitor::insert_statement_counter` from `lib.rs` (lines 118-162):
looks up the high and the low position of the statement span and builds
`Range::new(hi.line, hi.col, lo.line, lo.col)` — the high position is passed
as the start and the low position as the end — then allocates a statement id
for that range and builds the `s`-counter statement. -/
def lib_insert_statement_counter (lookup : Nat → Loc) (covFnIdent : String)
    (cov : Cov) (stmtSpan : Span) : Cov × Stmt :=
  let stmtHiLoc := lookup stmtSpan.hi
  let stmtLoLoc := lookup stmtSpan.lo
  let stmtRange : Range :=
    ⟨stmtHiLoc.line, stmtHiLoc.col, stmtLoLoc.line, stmtLoLoc.col⟩
  let p := cov.new_statement stmtRange
  (p.1, counterStmt covFnIdent "s" p.2 Option.none)

/-! ## Hint comments and the node path -/

/-- `IgnoreScope` (hint-comment scanner states). -/
inductive IgnoreScope where
  | fileS
  | nextS
  | ifS
  | elseS
  | classMethodS
deriving DecidableEq, Repr

/-- The lightweight node-kind tags kept on the visitor's node path. -/
inductive Node where
  | program
  | blockStmt
  | stmts
  | fnDecl
  | fnExpr
  | exprStmtNode
  | returnStmt
  | varDecl
  | varDeclarator
  | ifStmtNode
  | logicalExpr
  | binExpr
deriving DecidableEq, Repr

/-- Context shared by the macro-generated visitors: the position service,
the per-file coverage function identifier, the options, and the
hint-comment scanner. The scanner (`crate::utils::hint_comments`) source is
not available; it is modelled from the spec as a function from a node span
to an optional ignore scope, supplied as input data. -/
structure MCtx where
  lookup : Nat → Loc
  covFnIdent : String
  opts : InstrumentOptions
  shouldIgnore : Span → Option IgnoreScope

/-- `should_ignore` consulted on an optional span (absent spans have no
hints). -/
def MCtx.ignoreOf (ctx : MCtx) (sp : Option Span) : Option IgnoreScope :=
  match sp with
  | Option.some sp => ctx.shouldIgnore sp
  | Option.none => Option.none

/-- The mutable state of one `StmtVisitor` instance: the borrowed coverage
map and the `before` statements it has marked for prepending. -/
structure MSt where
  cov : Cov
  before : StmtList

/-! ## Finder visitors

`crate::visitors::finders` is not available. The finders are `Visit`
implementations run over an expression with `visit_with`, which recursively
visits the node and all of its descendants; each finder sets its flag when
the node kind it looks for is visited. They are modelled accordingly as
recursive descendant searches:
* `BlockStmtFinder`: a `BlockStmt` node occurs in the tree. A function
  expression's body is itself a `BlockStmt`, so any function expression
  triggers it.
* `StmtFinder`: a `Stmt` node occurs in the tree; statements occur exactly
  as elements of statement lists inside function bodies.
* `HoistingFinder`: a hoistable (function/class) expression occurs.
* `ExprFinder`: an `Expr` node occurs; the visited root is itself an
  expression, so this always fires. -/

mutual

/-- Does a `BlockStmt` node occur anywhere in this expression? -/
def containsBlockE : Expr → Bool
  | .lit _ _ => false
  | .ident _ _ => false
  | .call callee args _ => containsBlockE callee || containsBlockEL args
  | .member obj prop _ => containsBlockE obj || containsBlockMP prop
  | .update _ _ arg _ => containsBlockE arg
  | .paren inner _ => containsBlockE inner
  | .seq exprs _ => containsBlockEL exprs
  | .bin _ lhs rhs _ => containsBlockE lhs || containsBlockE rhs
  | .fnExpr _ _ _ => true

def containsBlockEL : ExprList → Bool
  | .nil => false
  | .cons e es => containsBlockE e || containsBlockEL es

def containsBlockMP : MemberProp → Bool
  | .propIdent _ => false
  | .computed e => containsBlockE e

end

mutual

/-- Does a `Stmt` node occur anywhere in this expression? -/
def containsStmtE : Expr → Bool
  | .lit _ _ => false
  | .ident _ _ => false
  | .call callee args _ => containsStmtE callee || containsStmtEL args
  | .member obj prop _ => containsStmtE obj || containsStmtMP prop
  | .update _ _ arg _ => containsStmtE arg
  | .paren inner _ => containsStmtE inner
  | .seq exprs _ => containsStmtEL exprs
  | .bin _ lhs rhs _ => containsStmtE lhs || containsStmtE rhs
  | .fnExpr body _ _ =>
      match body with
      | .nil => false
      | .cons _ _ => true

def containsStmtEL : ExprList → Bool
  | .nil => false
  | .cons e es => containsStmtE e || containsStmtEL es

def containsStmtMP : MemberProp → Bool
  | .propIdent _ => false
  | .computed e => containsStmtE e

end

mutual

/-- Does a hoistable (function) expression occur anywhere in this
expression? -/
def containsHoistE : Expr → Bool
  | .lit _ _ => false
  | .ident _ _ => false
  | .call callee args _ => containsHoistE callee || containsHoistEL args
  | .member obj prop _ => containsHoistE obj || containsHoistMP prop
  | .update _ _ arg _ => containsHoistE arg
  | .paren inner _ => containsHoistE inner
  | .seq exprs _ => containsHoistEL exprs
  | .bin _ lhs rhs _ => containsHoistE lhs || containsHoistE rhs
  | .fnExpr _ _ _ => true

def containsHoistEL : ExprList → Bool
  | .nil => false
  | .cons e es => containsHoistE e || containsHoistEL es

def containsHoistMP : MemberProp → Bool
  | .propIdent _ => false
  | .computed e => containsHoistE e

end

mutual

/-- `LogicalExprLeafFinder`: does a logical (`||`/`&&`/`??`) binary
expression occur anywhere in this expression (the expression itself
included)? It descends into function bodies, as `visit_with` does. -/
def containsLogicalE : Expr → Bool
  | .lit _ _ => false
  | .ident _ _ => false
  | .call callee args _ => containsLogicalE callee || containsLogicalEL args
  | .member obj prop _ => containsLogicalE obj || containsLogicalMP prop
  | .update _ _ arg _ => containsLogicalE arg
  | .paren inner _ => containsLogicalE inner
  | .seq exprs _ => containsLogicalEL exprs
  | .bin op lhs rhs _ =>
      op.isLogical || containsLogicalE lhs || containsLogicalE rhs
  | .fnExpr body _ _ => containsLogicalSL body

def containsLogicalEL : ExprList → Bool
  | .nil => false
  | .cons e es => containsLogicalE e || containsLogicalEL es

def containsLogicalMP : MemberProp → Bool
  | .propIdent _ => false
  | .computed e => containsLogicalE e

def containsLogicalOE : OptExpr → Bool
  | .none => false
  | .some e => containsLogicalE e

def containsLogicalS : Stmt → Bool
  | .exprStmt e _ => containsLogicalE e
  | .ret arg _ => containsLogicalOE arg
  | .block body _ => containsLogicalSL body
  | .ifStmt test conseq alt _ =>
      containsLogicalE test || containsLogicalS conseq || containsLogicalOS alt
  | .varDecl decls _ => containsLogicalDL decls

def containsLogicalOS : OptStmt → Bool
  | .none => false
  | .some s => containsLogicalS s

def containsLogicalSL : StmtList → Bool
  | .nil => false
  | .cons s ss => containsLogicalS s || containsLogicalSL ss

def containsLogicalDL : DeclList → Bool
  | .nil => false
  | .cons init _ tail => containsLogicalOE init || containsLogicalDL tail

end

/-- `ExprFinder` run over an expression root: the root itself is an
expression, so the finder always fires. -/
def exprFinderFires (_ : Expr) : Bool := true

/-! ## Counter-insertion helpers (`visitor_macros.rs`, `insert_counter_helper`) -/

/-- `mark_prepend_stmt_counter`: allocate a statement id for the span's
range and push the `s`-counter statement onto `before`. -/
def mark_prepend_stmt_counter (ctx : MCtx) (sp : Span) (m : MSt) : MSt :=
  let rg := get_range_from_span ctx.lookup sp
  let p := m.cov.new_statement rg
  ⟨p.1, m.before.app
    (.cons (counterStmt ctx.covFnIdent "s" p.2 Option.none) .nil)⟩

/-- `replace_expr_with_stmt_counter` via `replace_expr_with_counter`: when
the expression has a (non-dummy) span, allocate a statement id for its range
and replace the expression by `(counter, expr)` in parentheses; otherwise do
nothing. -/
def replace_expr_with_stmt_counter (ctx : MCtx) (cov : Cov) (e : Expr) :
    Cov × Expr :=
  match getExprSpan e with
  | Option.none => (cov, e)
  | Option.some sp =>
      let rg := get_range_from_span ctx.lookup sp
      let p := cov.new_statement rg
      (p.1,
       .paren (.seq (.cons (create_increase_expression_expr ctx.covFnIdent
            "s" p.2 Option.none) (.cons e .nil)) DUMMY_SP) DUMMY_SP)

/-- `replace_expr_with_branch_counter`: same wrapping, but the counter is
`b[branch][pathIdx]++` with a fresh path allocated from the expression's
range. -/
def replace_expr_with_branch_counter (ctx : MCtx) (cov : Cov) (branch : Nat)
    (e : Expr) : Cov × Expr :=
  match getExprSpan e with
  | Option.none => (cov, e)
  | Option.some sp =>
      let rg := get_range_from_span ctx.lookup sp
      let p := cov.add_branch_path branch rg
      (p.1,
       .paren (.seq (.cons (create_increase_expression_expr ctx.covFnIdent
            "b" branch (Option.some p.2)) (.cons e .nil)) DUMMY_SP) DUMMY_SP)

/-- The leaf case of `wrap_bin_expr_with_branch_counter`: when
`report_logic` is enabled the source's `if` body contains only a
commented-out TODO and does nothing; when disabled the leaf is replaced
with its branch counter. -/
def wrapBinLeaf (ctx : MCtx) (branch : Nat) (cov : Cov) (e : Expr) :
    Cov × Expr :=
  if ctx.opts.report_logic then (cov, e)
  else replace_expr_with_branch_counter ctx cov branch e

/-- `wrap_bin_expr_with_branch_counter` (`visitor_macros.rs`, lines 5-52):
if the expression contains an inner logical expression it is not a leaf and
is descended into as part of the same branch (the descent is performed by
`LogicalExprVisitor`, whose source is not available; it is modelled from the
spec: operands of the chain are visited with the same branch id through
binary and parenthesized layers, other shapes are left to it untouched).
Otherwise the expression is a leaf, handled by `wrapBinLeaf`. -/
def wrap_bin_expr_with_branch_counter (ctx : MCtx) (branch : Nat) (cov : Cov) :
    Expr → Cov × Expr
  | .bin op lhs rhs sp =>
      if containsLogicalE (.bin op lhs rhs sp) then
        let pl := wrap_bin_expr_with_branch_counter ctx branch cov lhs
        let pr := wrap_bin_expr_with_branch_counter ctx branch pl.1 rhs
        (pr.1, .bin op pl.2 pr.2 sp)
      else wrapBinLeaf ctx branch cov (.bin op lhs rhs sp)
  | .paren inner sp =>
      if containsLogicalE (.paren inner sp) then
        let pi := wrap_bin_expr_with_branch_counter ctx branch cov inner
        (pi.1, .paren pi.2 sp)
      else wrapBinLeaf ctx branch cov (.paren inner sp)
  | .lit v sp =>
      if containsLogicalE (.lit v sp) then (cov, .lit v sp)
      else wrapBinLeaf ctx branch cov (.lit v sp)
  | .ident n sp =>
      if containsLogicalE (.ident n sp) then (cov, .ident n sp)
      else wrapBinLeaf ctx branch cov (.ident n sp)
  | .call c1 args sp =>
      if containsLogicalE (.call c1 args sp) then (cov, .call c1 args sp)
      else wrapBinLeaf ctx branch cov (.call c1 args sp)
  | .member o p sp =>
      if containsLogicalE (.member o p sp) then (cov, .member o p sp)
      else wrapBinLeaf ctx branch cov (.member o p sp)
  | .update op pfx a sp =>
      if containsLogicalE (.update op pfx a sp) then (cov, .update op pfx a sp)
      else wrapBinLeaf ctx branch cov (.update op pfx a sp)
  | .seq es sp =>
      if containsLogicalE (.seq es sp) then (cov, .seq es sp)
      else wrapBinLeaf ctx branch cov (.seq es sp)
  | .fnExpr body bsp sp =>
      if containsLogicalE (.fnExpr body bsp sp) then (cov, .fnExpr body bsp sp)
      else wrapBinLeaf ctx branch cov (.fnExpr body bsp sp)

/-- `cover_statement` (`visitor_macros.rs`, lines 226-282). With no span
(synthetic node) nothing happens. A block-containing expression gets a
prepended statement counter and an early return. A statement-containing
expression gets a prepended statement counter and *falls through* (no early
return in the source). The hoisting branch applies to hoistable initializers
of a variable declarator and consults the node path three and four levels
up; `self.nodes.last().unwrap()` requires a non-empty node path (`none`
models the failure). Finally the expression-finder branch (which always
fires for an expression root) replaces the expression with its statement
counter. -/
def cover_statement (ctx : MCtx) (nodes : List Node) (m : MSt) (e : Expr) :
    Option (MSt × Expr) :=
  match getExprSpan e with
  | Option.none => some (m, e)
  | Option.some sp =>
    if containsBlockE e then some (mark_prepend_stmt_counter ctx sp m, e)
    else
      let m1 := if containsStmtE e then mark_prepend_stmt_counter ctx sp m else m
      match nodes.getLast? with
      | Option.none => none
      | Option.some parent =>
        if containsHoistE e && parent = Node.varDeclarator then
          let p3 := if 3 ≤ nodes.length then nodes.get? (nodes.length - 3)
                    else Option.none
          match p3 with
          | Option.some _ =>
              let p4 := if 4 ≤ nodes.length then nodes.get? (nodes.length - 4)
                        else Option.none
              match p4 with
              | Option.some Node.blockStmt =>
                  some (mark_prepend_stmt_counter ctx sp m1, e)
              | Option.some Node.program =>
                  some (mark_prepend_stmt_counter ctx sp m1, e)
              | _ => some (m1, e)
          | Option.none =>
              let p := replace_expr_with_stmt_counter ctx m1.cov e
              some (⟨p.1, m1.before⟩, p.2)
        else
          if exprFinderFires e then
            let p := replace_expr_with_stmt_counter ctx m1.cov e
            some (⟨p.1, m1.before⟩, p.2)
          else some (m1, e)

/-! ## The macro-generated visitors (`visit_mut_coverage` / `insert_stmt_counter`)

The mutually recursive traversal is written with an explicit fuel parameter
(the variable-declarator rule re-visits the initializer after it has been
replaced by a larger tree, so the recursion is not structural on the AST);
every recursive call spends one unit of fuel, and exhausted fuel yields
`none`. Any fuel at least the size of the tree being visited suffices. -/

mutual

/-- Visiting an expression (`visit_mut_expr` children dispatch plus the
expression rules `visit_mut_bin_expr` and `visit_mut_fn_expr`). -/
def mvExpr (ctx : MCtx) : Nat → List Node → MSt → Expr → Option (MSt × Expr)
  | 0, _, _, _ => none
  | f + 1, nodes, m, e =>
    match e with
    | .lit v sp => some (m, .lit v sp)
    | .ident n sp => some (m, .ident n sp)
    | .call callee args sp => do
        let (m, callee') ← mvExpr ctx f nodes m callee
        let (m, args') ← mvExprList ctx f nodes m args
        some (m, .call callee' args' sp)
    | .member obj prop sp => do
        let (m, obj') ← mvExpr ctx f nodes m obj
        let (m, prop') ← mvMemberProp ctx f nodes m prop
        some (m, .member obj' prop' sp)
    | .update op pfx arg sp => do
        let (m, arg') ← mvExpr ctx f nodes m arg
        some (m, .update op pfx arg' sp)
    | .paren inner sp => do
        let (m, inner') ← mvExpr ctx f nodes m inner
        some (m, .paren inner' sp)
    | .seq exprs sp => do
        let (m, exprs') ← mvExprList ctx f nodes m exprs
        some (m, .seq exprs' sp)
    | .bin op lhs rhs sp =>
        if op.isLogical then
          -- visit_mut_bin_expr, logical case
          if ctx.shouldIgnore sp = Option.some .nextS then do
            let (m, lhs') ← mvExpr ctx f (nodes ++ [.logicalExpr]) m lhs
            let (m, rhs') ← mvExpr ctx f (nodes ++ [.logicalExpr]) m rhs
            some (m, .bin op lhs' rhs' sp)
          else
            let rg := get_range_from_span ctx.lookup sp
            let pb := m.cov.new_branch .binaryExpr rg ctx.opts.report_logic
            let pl := wrap_bin_expr_with_branch_counter ctx pb.2 pb.1 lhs
            let pr := wrap_bin_expr_with_branch_counter ctx pb.2 pl.1 rhs
            some (⟨pr.1, m.before⟩, .bin op pl.2 pr.2 sp)
        else do
          let (m, lhs') ← mvExpr ctx f (nodes ++ [.binExpr]) m lhs
          let (m, rhs') ← mvExpr ctx f (nodes ++ [.binExpr]) m rhs
          some (m, .bin op lhs' rhs' sp)
    | .fnExpr body bodySp sp =>
        -- visit_mut_fn_expr: visit_mut_fn first, then children
        let rg := get_range_from_span ctx.lookup sp
        let bodyRg := get_range_from_span ctx.lookup bodySp
        let pf := m.cov.new_function Option.none rg bodyRg
        let body1 : StmtList :=
          .cons (counterStmt ctx.covFnIdent "f" pf.2 Option.none) body
        do
          let (cov2, body2) ← insertStmtsCounter ctx f
            (nodes ++ [.fnExpr, .blockStmt, .stmts]) pf.1 body1
          some (⟨cov2, m.before⟩, .fnExpr body2 bodySp sp)

def mvExprList (ctx : MCtx) :
    Nat → List Node → MSt → ExprList → Option (MSt × ExprList)
  | 0, _, _, _ => none
  | f + 1, nodes, m, es =>
    match es with
    | .nil => some (m, .nil)
    | .cons e rest => do
        let (m, e') ← mvExpr ctx f nodes m e
        let (m, rest') ← mvExprList ctx f nodes m rest
        some (m, .cons e' rest')

def mvMemberProp (ctx : MCtx) :
    Nat → List Node → MSt → MemberProp → Option (MSt × MemberProp)
  | 0, _, _, _ => none
  | f + 1, nodes, m, p =>
    match p with
    | .propIdent n => some (m, .propIdent n)
    | .computed e => do
        let (m, e') ← mvExpr ctx f nodes m e
        some (m, .computed e')

def mvOptExpr (ctx : MCtx) :
    Nat → List Node → MSt → OptExpr → Option (MSt × OptExpr)
  | 0, _, _, _ => none
  | f + 1, nodes, m, oe =>
    match oe with
    | .none => some (m, .none)
    | .some e => do
        let (m, e') ← mvExpr ctx f nodes m e
        some (m, .some e')

/-- Visiting the children of one statement with a `StmtVisitor`
(`stmt.visit_mut_children_with(&mut visitor)` dispatches to the macro rule
for the statement's variant). -/
def mvStmtChildren (ctx : MCtx) :
    Nat → List Node → MSt → Stmt → Option (MSt × Stmt)
  | 0, _, _, _ => none
  | f + 1, nodes, m, s =>
    match s with
    | .exprStmt e sp =>
        -- visit_mut_expr_stmt
        let m1 :=
          match ctx.shouldIgnore sp with
          | Option.some .nextS => m
          | _ =>
              if is_injected_counter_expr ctx.covFnIdent e then m
              else mark_prepend_stmt_counter ctx sp m
        do
          let (m2, e') ← mvExpr ctx f (nodes ++ [.exprStmtNode]) m1 e
          some (m2, .exprStmt e' sp)
    | .ret arg sp =>
        -- visit_mut_return_stmt: unconditional statement counter
        let m1 := mark_prepend_stmt_counter ctx sp m
        do
          let (m2, arg') ← mvOptExpr ctx f (nodes ++ [.returnStmt]) m1 arg
          some (m2, .ret arg' sp)
    | .block body sp => do
        -- visit_mut_block_stmt: descend; inner lists go through
        -- visit_mut_stmts → insert_stmts_counter
        let (cov2, body') ← insertStmtsCounter ctx f
          (nodes ++ [.blockStmt, .stmts]) m.cov body
        some (⟨cov2, m.before⟩, .block body' sp)
    | .varDecl decls sp => do
        -- visit_mut_var_decl: no counter of its own, descend to declarators
        let (m2, decls') ← mvDeclList ctx f (nodes ++ [.varDecl]) m decls
        some (m2, .varDecl decls' sp)
    | .ifStmt test conseq alt sp =>
        -- visit_mut_if_stmt
        match ctx.shouldIgnore sp with
        | Option.some .nextS => some (m, .ifStmt test conseq alt sp)
        | ign =>
          let nodes' := nodes ++ [.ifStmtNode]
          let m1 := mark_prepend_stmt_counter ctx sp m
          let rg := get_range_from_span ctx.lookup sp
          let pb := m1.cov.new_branch .ifKind rg false
          do
            let (covC, conseq') ←
              if ign = Option.some .ifS then some (pb.1, conseq)
              else wrapWithCounter ctx f nodes' pb.2 rg pb.1 conseq
            if ign = Option.some .elseS then do
              let (m2, test') ← mvExpr ctx f nodes' ⟨covC, m1.before⟩ test
              some (m2, .ifStmt test' conseq' alt sp)
            else
              match alt with
              | .some a => do
                  let (covA, a') ← wrapWithCounter ctx f nodes' pb.2 rg covC a
                  let (m2, test') ← mvExpr ctx f nodes' ⟨covA, m1.before⟩ test
                  some (m2, .ifStmt test' conseq' (.some a') sp)
              | .none => do
                  let (covA, a') ← wrapWithCounter ctx f nodes' pb.2 rg covC
                    (.block .nil DUMMY_SP)
                  let (m2, test') ← mvExpr ctx f nodes' ⟨covA, m1.before⟩ test
                  some (m2, .ifStmt test' conseq' (.some a') sp)

/-- Visiting variable declarators (`visit_mut_var_declarator`). -/
def mvDeclList (ctx : MCtx) :
    Nat → List Node → MSt → DeclList → Option (MSt × DeclList)
  | 0, _, _, _ => none
  | f + 1, nodes, m, ds =>
    match ds with
    | .nil => some (m, .nil)
    | .cons init dsp rest =>
        match ctx.shouldIgnore dsp with
        | Option.some .nextS => do
            -- ignore hint: neither cover_statement nor child visitation
            let (m2, rest') ← mvDeclList ctx f nodes m rest
            some (m2, .cons init dsp rest')
        | _ =>
            let nodes' := nodes ++ [.varDeclarator]
            do
              let (m1, init1) ←
                match init with
                | .none => some (m, OptExpr.none)
                | .some e => do
                    let (m1, e1) ← cover_statement ctx nodes' m e
                    some (m1, OptExpr.some e1)
              let (m2, init2) ← mvOptExpr ctx f nodes' m1 init1
              let (m3, rest') ← mvDeclList ctx f nodes m2 rest
              some (m3, .cons init2 dsp rest')

/-- `insert_stmts_counter`: for each statement, skip recognized injected
counters; otherwise visit its children with a fresh `StmtVisitor` and emit
that visitor's `before` statements in front of the (mutated) statement. -/
def insertStmtsCounter (ctx : MCtx) :
    Nat → List Node → Cov → StmtList → Option (Cov × StmtList)
  | 0, _, _, _ => none
  | f + 1, nodes, cov, sl =>
    match sl with
    | .nil => some (cov, .nil)
    | .cons s rest =>
        if is_injected_counter_stmt ctx.covFnIdent s then do
          let (cov1, rest') ← insertStmtsCounter ctx f nodes cov rest
          some (cov1, .cons s rest')
        else do
          let (m1, s') ← mvStmtChildren ctx f nodes ⟨cov, .nil⟩ s
          let (cov2, rest') ← insertStmtsCounter ctx f nodes m1.cov rest
          some (cov2, m1.before.app (.cons s' rest'))

/-- The `wrap_with_counter` closure inside `visit_mut_if_stmt`: allocate a
branch path for the `if`'s own range, build the `b`-counter, and turn the
arm into a block `[counter] ++ (instrumented arm)`. A block arm keeps its
block and gets `insert_stmts_counter` applied inside; any other arm is
visited with a fresh `StmtVisitor` and packed as
`[counter] ++ visitor.before ++ [arm]` in a synthesized block. -/
def wrapWithCounter (ctx : MCtx) :
    Nat → List Node → Nat → Range → Cov → Stmt → Option (Cov × Stmt)
  | 0, _, _, _, _, _ => none
  | f + 1, nodes, branch, rg, cov, s =>
    let pi := cov.add_branch_path branch rg
    let cnt := counterStmt ctx.covFnIdent "b" branch (Option.some pi.2)
    match s with
    | .block stmts bsp => do
        let (cov2, stmts') ← insertStmtsCounter ctx f nodes pi.1 stmts
        some (cov2, .block (.cons cnt stmts') bsp)
    | s => do
        let (m1, s') ← mvStmtChildren ctx f nodes ⟨pi.1, .nil⟩ s
        some (m1.cov, .block (.cons cnt (m1.before.app (.cons s' .nil)))
          DUMMY_SP)

end

/-! ## The `lib.rs` pipeline

`lib.rs` contains its own, simpler instrumentation pass: `CoverageVisitor`'s
`VisitMut` impl with the flat `StmtVisitor` of lines 107-229. The
`StmtVisitor` visits the children of a statement first and then appends a
counter for the statement itself to its `before_stmts`; it never rewrites
the statement. -/

mutual

/-- `lib.rs` `StmtVisitor` recursion over a statement: collect counters for
all nested statements (children first), then the statement itself. -/
def libSVStmt (lookup : Nat → Loc) (covFnIdent : String) (cov : Cov)
    (s : Stmt) : Cov × List Stmt :=
  match s with
  | .exprStmt e sp =>
      let pe := libSVExpr lookup covFnIdent cov e
      let ps := lib_insert_statement_counter lookup covFnIdent pe.1 sp
      (ps.1, pe.2 ++ [ps.2])
  | .ret arg sp =>
      let pa := libSVOptExpr lookup covFnIdent cov arg
      let ps := lib_insert_statement_counter lookup covFnIdent pa.1 sp
      (ps.1, pa.2 ++ [ps.2])
  | .block body sp =>
      let pb := libSVStmtList lookup covFnIdent cov body
      let ps := lib_insert_statement_counter lookup covFnIdent pb.1 sp
      (ps.1, pb.2 ++ [ps.2])
  | .ifStmt test conseq alt sp =>
      let pt := libSVExpr lookup covFnIdent cov test
      let pc := libSVStmt lookup covFnIdent pt.1 conseq
      let pa := libSVOptStmt lookup covFnIdent pc.1 alt
      let ps := lib_insert_statement_counter lookup covFnIdent pa.1 sp
      (ps.1, pt.2 ++ pc.2 ++ pa.2 ++ [ps.2])
  | .varDecl decls sp =>
      let pd := libSVDeclList lookup covFnIdent cov decls
      let ps := lib_insert_statement_counter lookup covFnIdent pd.1 sp
      (ps.1, pd.2 ++ [ps.2])

def libSVExpr (lookup : Nat → Loc) (covFnIdent : String) (cov : Cov)
    (e : Expr) : Cov × List Stmt :=
  match e with
  | .lit _ _ => (cov, [])
  | .ident _ _ => (cov, [])
  | .call callee args _ =>
      let pc := libSVExpr lookup covFnIdent cov callee
      let pa := libSVExprList lookup covFnIdent pc.1 args
      (pa.1, pc.2 ++ pa.2)
  | .member obj prop _ =>
      let po := libSVExpr lookup covFnIdent cov obj
      let pp := libSVMemberProp lookup covFnIdent po.1 prop
      (pp.1, po.2 ++ pp.2)
  | .update _ _ arg _ => libSVExpr lookup covFnIdent cov arg
  | .paren inner _ => libSVExpr lookup covFnIdent cov inner
  | .seq exprs _ => libSVExprList lookup covFnIdent cov exprs
  | .bin _ lhs rhs _ =>
      let pl := libSVExpr lookup covFnIdent cov lhs
      let pr := libSVExpr lookup covFnIdent pl.1 rhs
      (pr.1, pl.2 ++ pr.2)
  | .fnExpr body _ _ => libSVStmtList lookup covFnIdent cov body

def libSVExprList (lookup : Nat → Loc) (covFnIdent : String) (cov : Cov)
    (es : ExprList) : Cov × List Stmt :=
  match es with
  | .nil => (cov, [])
  | .cons e rest =>
      let pe := libSVExpr lookup covFnIdent cov e
      let pr := libSVExprList lookup covFnIdent pe.1 rest
      (pr.1, pe.2 ++ pr.2)

def libSVMemberProp (lookup : Nat → Loc) (covFnIdent : String) (cov : Cov)
    (p : MemberProp) : Cov × List Stmt :=
  match p with
  | .propIdent _ => (cov, [])
  | .computed e => libSVExpr lookup covFnIdent cov e

def libSVOptExpr (lookup : Nat → Loc) (covFnIdent : String) (cov : Cov)
    (oe : OptExpr) : Cov × List Stmt :=
  match oe with
  | .none => (cov, [])
  | .some e => libSVExpr lookup covFnIdent cov e

def libSVOptStmt (lookup : Nat → Loc) (covFnIdent : String) (cov : Cov)
    (os : OptStmt) : Cov × List Stmt :=
  match os with
  | .none => (cov, [])
  | .some s => libSVStmt lookup covFnIdent cov s

def libSVStmtList (lookup : Nat → Loc) (covFnIdent : String) (cov : Cov)
    (sl : StmtList) : Cov × List Stmt :=
  match sl with
  | .nil => (cov, [])
  | .cons s rest =>
      let ps := libSVStmt lookup covFnIdent cov s
      let pr := libSVStmtList lookup covFnIdent ps.1 rest
      (pr.1, ps.2 ++ pr.2)

def libSVDeclList (lookup : Nat → Loc) (covFnIdent : String) (cov : Cov)
    (ds : DeclList) : Cov × List Stmt :=
  match ds with
  | .nil => (cov, [])
  | .cons init _ rest =>
      let pe := libSVOptExpr lookup covFnIdent cov init
      let pr := libSVDeclList lookup covFnIdent pe.1 rest
      (pr.1, pe.2 ++ pr.2)

end

/-- Turn a `List Stmt` into a `StmtList` prefix of a tail. -/
def stmtsOnto : List Stmt → StmtList → StmtList
  | [], tail => tail
  | s :: rest, tail => .cons s (stmtsOnto rest tail)

mutual

/-- `lib.rs` `CoverageVisitor` default recursion over a statement's
children: descends, applying `visit_mut_stmts` to every nested statement
list. -/
def libCovStmt (lookup : Nat → Loc) (covFnIdent : String) (cov : Cov)
    (s : Stmt) : Cov × Stmt :=
  match s with
  | .exprStmt e sp =>
      let pe := libCovExpr lookup covFnIdent cov e
      (pe.1, .exprStmt pe.2 sp)
  | .ret arg sp =>
      let pa := libCovOptExpr lookup covFnIdent cov arg
      (pa.1, .ret pa.2 sp)
  | .block body sp =>
      let pb := libVisitMutStmts lookup covFnIdent cov body
      (pb.1, .block pb.2 sp)
  | .ifStmt test conseq alt sp =>
      let pt := libCovExpr lookup covFnIdent cov test
      let pc := libCovStmt lookup covFnIdent pt.1 conseq
      let pa := libCovOptStmt lookup covFnIdent pc.1 alt
      (pa.1, .ifStmt pt.2 pc.2 pa.2 sp)
  | .varDecl decls sp =>
      let pd := libCovDeclList lookup covFnIdent cov decls
      (pd.1, .varDecl pd.2 sp)

def libCovExpr (lookup : Nat → Loc) (covFnIdent : String) (cov : Cov)
    (e : Expr) : Cov × Expr :=
  match e with
  | .lit v sp => (cov, .lit v sp)
  | .ident n sp => (cov, .ident n sp)
  | .call callee args sp =>
      let pc := libCovExpr lookup covFnIdent cov callee
      let pa := libCovExprList lookup covFnIdent pc.1 args
      (pa.1, .call pc.2 pa.2 sp)
  | .member obj prop sp =>
      let po := libCovExpr lookup covFnIdent cov obj
      let pp := libCovMemberProp lookup covFnIdent po.1 prop
      (pp.1, .member po.2 pp.2 sp)
  | .update op pfx arg sp =>
      let pa := libCovExpr lookup covFnIdent cov arg
      (pa.1, .update op pfx pa.2 sp)
  | .paren inner sp =>
      let pi := libCovExpr lookup covFnIdent cov inner
      (pi.1, .paren pi.2 sp)
  | .seq exprs sp =>
      let pe := libCovExprList lookup covFnIdent cov exprs
      (pe.1, .seq pe.2 sp)
  | .bin op lhs rhs sp =>
      let pl := libCovExpr lookup covFnIdent cov lhs
      let pr := libCovExpr lookup covFnIdent pl.1 rhs
      (pr.1, .bin op pl.2 pr.2 sp)
  | .fnExpr body bodySp sp =>
      let pb := libVisitMutStmts lookup covFnIdent cov body
      (pb.1, .fnExpr pb.2 bodySp sp)

def libCovExprList (lookup : Nat → Loc) (covFnIdent : String) (cov : Cov)
    (es : ExprList) : Cov × ExprList :=
  match es with
  | .nil => (cov, .nil)
  | .cons e rest =>
      let pe := libCovExpr lookup covFnIdent cov e
      let pr := libCovExprList lookup covFnIdent pe.1 rest
      (pr.1, .cons pe.2 pr.2)

def libCovMemberProp (lookup : Nat → Loc) (covFnIdent : String) (cov : Cov)
    (p : MemberProp) : Cov × MemberProp :=
  match p with
  | .propIdent n => (cov, .propIdent n)
  | .computed e =>
      let pe := libCovExpr lookup covFnIdent cov e
      (pe.1, .computed pe.2)

def libCovOptExpr (lookup : Nat → Loc) (covFnIdent : String) (cov : Cov)
    (oe : OptExpr) : Cov × OptExpr :=
  match oe with
  | .none => (cov, .none)
  | .some e =>
      let pe := libCovExpr lookup covFnIdent cov e
      (pe.1, .some pe.2)

def libCovOptStmt (lookup : Nat → Loc) (covFnIdent : String) (cov : Cov)
    (os : OptStmt) : Cov × OptStmt :=
  match os with
  | .none => (cov, .none)
  | .some s =>
      let ps := libCovStmt lookup covFnIdent cov s
      (ps.1, .some ps.2)

def libCovDeclList (lookup : Nat → Loc) (covFnIdent : String) (cov : Cov)
    (ds : DeclList) : Cov × DeclList :=
  match ds with
  | .nil => (cov, .nil)
  | .cons init dsp rest =>
      let pe := libCovOptExpr lookup covFnIdent cov init
      let pr := libCovDeclList lookup covFnIdent pe.1 rest
      (pr.1, .cons pe.2 dsp pr.2)

/-- The first phase of `CoverageVisitor::visit_mut_stmts`: visit children
(recursively treating deeper lists) — `stmts.visit_mut_children_with(self)`. -/
def libCovStmtListChildren (lookup : Nat → Loc) (covFnIdent : String)
    (cov : Cov) (sl : StmtList) : Cov × StmtList :=
  match sl with
  | .nil => (cov, .nil)
  | .cons s rest =>
      let ps := libCovStmt lookup covFnIdent cov s
      let pr := libCovStmtListChildren lookup covFnIdent ps.1 rest
      (pr.1, .cons ps.2 pr.2)

/-- `CoverageVisitor::visit_mut_stmts` from `lib.rs` (lines 270-295): first
visit children, then drain the list, running a fresh `StmtVisitor` over each
statement and splicing its `before_stmts` in front of it. -/
def libVisitMutStmts (lookup : Nat → Loc) (covFnIdent : String) (cov : Cov)
    (sl : StmtList) : Cov × StmtList :=
  let pc := libCovStmtListChildren lookup covFnIdent cov sl
  libDrain lookup covFnIdent pc.1 pc.2

/-- The drain loop of `visit_mut_stmts`: per statement, run the flat
`StmtVisitor` and emit `before_stmts ++ [stmt]` (`replace` is always
`false`; `after_stmts` stays empty). -/
def libDrain (lookup : Nat → Loc) (covFnIdent : String) (cov : Cov)
    (sl : StmtList) : Cov × StmtList :=
  match sl with
  | .nil => (cov, .nil)
  | .cons s rest =>
      let ps := libSVStmt lookup covFnIdent cov s
      let pr := libDrain lookup covFnIdent ps.1 rest
      (pr.1, stmtsOnto ps.2 (.cons s pr.2))

end

/-- A program: a module whose items are statements, with the module span. -/
structure Program where
  items : StmtList
  span : Span

/-- The preamble produced by `create_coverage_fn_decl` and
`create_global_stmt_template` (template sources not available; modelled from
the spec's Preamble Synthesizer section): the declaration of the coverage
function plus the eager self-call, described by the data that parameterizes
it. The registry path is the key under `G[coverageVariable]` that the
emitted function stores the map under. -/
structure PreambleInfo where
  coverageVariable : String
  globalScope : String
  globalScopeFunc : Bool
  registryPath : String
  fnIdent : String
  covSnapshot : Cov

/-- The result of the program transformation: the rewritten items, the
comments the pass added at the end of the module span, and the preamble
items prepended (represented by their parameter data; `none` when no
preamble is emitted). -/
structure TransformOut where
  items : StmtList
  progSpan : Span
  trailing : List Comment
  preamble : Option PreambleInfo
  cov : Cov

/-- `CoverageVisitor::visit_mut_program` composed with
`visit_mut_module_items` from `lib.rs`: if `should_ignore_file` matches,
return immediately (nothing visited, nothing prepended, no comment added);
`is_instrumented_already` always returns `false` in the source. Otherwise
visit the items, freeze the map, synthesize the preamble (`coverage_template`
plus the eager call, prepended as two module items), and attach the
serialized coverage data as a trailing comment at the module span's high
end. Adding a trailing comment is a no-op when no comment store is
attached. -/
def visit_mut_program_lib (comments : Option CommentStore)
    (lookup : Nat → Loc) (covFnIdent : String) (coverageVariable : String)
    (filePath : String) (cov : Cov) (p : Program) : TransformOut :=
  if should_ignore_file comments p.span then
    ⟨p.items, p.span, [], Option.none, cov⟩
  else
    let pi := libCovStmtListChildren lookup covFnIdent cov p.items
    let cov1 := pi.1.freeze
    let pre : PreambleInfo :=
      ⟨coverageVariable, "this", true, filePath, covFnIdent, cov1⟩
    let trailing : List Comment :=
      match comments with
      | Option.none => []
      | Option.some _ =>
          [⟨"__coverage_data_json_comment__::" ++ serializeCov cov1⟩]
    ⟨pi.2, p.span, trailing, Option.some pre, cov1⟩

/-- What a run of the transformer emits, for comparison across runs: the
coverage-variable identifier, the frozen map hash, and the serialized map. -/
structure RunOut where
  varName : String
  covHash : Option String
  serialized : String
deriving DecidableEq, Repr

/-- One full run of the `lib.rs` transformer on a file, projected to its
emitted identifier, hash, and serialized map. -/
def runEmitted (comments : Option CommentStore) (lookup : Nat → Loc)
    (filePath : String) (opts : InstrumentOptions) (p : Program) : RunOut :=
  let varName := get_var_name_hash filePath
  let cov0 := Cov.new filePath opts.report_logic
  let out := visit_mut_program_lib comments lookup varName
    opts.coverage_variable filePath cov0 p
  ⟨varName, out.cov.covHash, serializeCov out.cov⟩

/-- The data computed by `process` in `lib.rs` before and after running the
visitor. -/
structure ProcessOut where
  filename : String
  options : InstrumentOptions
  var_name : String
  file_path : String
  initialCov : Cov
  result : TransformOut

/-- `process` from `lib.rs`: deserialize the transform context and the
plugin config (`serde_json::from_str(...).expect(...)`: a payload that does
not decode aborts the pass, modelled by the `Option Json` inputs and the
`none` result), extract the filename with fallback `"unknown.js"`, parse the
options with per-option defaults, construct the visitor (hashing the
filename into the coverage variable identifier, and keying the new
`SourceCoverage` by the filename), and fold the program with it. -/
def process (transformContext pluginConfig : Option Json)
    (comments : Option CommentStore) (lookup : Nat → Loc) (p : Program) :
    Option ProcessOut := do
  let context ← transformContext
  let filename := processFilename context
  let cfg ← pluginConfig
  let opts := parseInstrumentOptions cfg
  let varName := get_var_name_hash filename
  let cov0 := Cov.new filename opts.report_logic
  let out := visit_mut_program_lib comments lookup varName
    opts.coverage_variable filename cov0 p
  some ⟨filename, opts, varName, filename, cov0, out⟩

/-! ## Claims about the entry point, the hash, and the file-level ignore -/

/-- A digit character built from a value below ten is a decimal digit. -/
theorem ofNat_digit_isDigit (n : Nat) (h : n < 10) :
    (Char.ofNat (48 + n)).isDigit = true := by
  interval_cases n <;> decide

/-- Every character of the decimal rendering is a digit. -/
theorem natDecCharsAux_all_digits (fuel : Nat) :
    ∀ n, (natDecCharsAux fuel n).all Char.isDigit = true := by
  induction fuel with
  | zero => intro n; rfl
  | succ fuel ih =>
    intro n
    rw [natDecCharsAux]
    split
    · rename_i h
      simp only [List.all_cons, List.all_nil, Bool.and_true]
      exact ofNat_digit_isDigit n h
    · rename_i h
      rw [List.all_append, ih (n / 10)]
      simp only [Bool.true_and, List.all_cons, List.all_nil, Bool.and_true]
      exact ofNat_digit_isDigit _ (Nat.mod_lt _ (by norm_num))

/-- Every character of the decimal rendering is a digit. -/
theorem natDecChars_all_digits (n : Nat) :
    (natDecChars n).all Char.isDigit = true :=
  natDecCharsAux_all_digits (n + 1) n

/-- C1: if any leading or trailing comment at either end of the module span
matches the anchored `istanbul ignore file` pattern, the transformer returns
the program unchanged: the items are the input items, no preamble is
emitted, the coverage map is untouched (no counters injected), and no
trailing coverage comment is attached. -/
theorem C1_file_ignore (comments : Option CommentStore) (lookup : Nat → Loc)
    (covFnIdent coverageVariable filePath : String) (cov : Cov) (p : Program)
    (h : should_ignore_file comments p.span = true) :
    visit_mut_program_lib comments lookup covFnIdent coverageVariable
      filePath cov p = ⟨p.items, p.span, [], Option.none, cov⟩ := by
  unfold visit_mut_program_lib
  rw [h]
  simp

/-- Witness for C1 at a concrete program carrying a
`/* istanbul ignore file */` leading comment. -/
def c1Store : CommentStore :=
  ⟨fun pos => if pos = 0 then [⟨" istanbul ignore file "⟩] else [],
   fun _ => []⟩

def c1Prog : Program :=
  ⟨.cons (.exprStmt (.call (.ident "foo" ⟨23, 26⟩) .nil ⟨23, 28⟩) ⟨23, 29⟩)
    .nil, ⟨0, 29⟩⟩

theorem C1_file_ignore_w :
    should_ignore_file (Option.some c1Store) c1Prog.span = true ∧
    visit_mut_program_lib (Option.some c1Store) (fun off => ⟨1, off⟩) "cov_1"
      "__coverage__" "a.js" (Cov.new "a.js" false) c1Prog
      = ⟨c1Prog.items, c1Prog.span, [], Option.none, Cov.new "a.js" false⟩ :=
  ⟨by decide,
   C1_file_ignore (Option.some c1Store) (fun off => ⟨1, off⟩) "cov_1"
     "__coverage__" "a.js" (Cov.new "a.js" false) c1Prog (by decide)⟩

/-- C3: `StmtVisitor::insert_statement_counter` in `lib.rs` passes the high
position of the span as the start of the range and the low position as the
end (`Range::new(stmt_hi_loc.line, stmt_hi_loc.col, stmt_lo_loc.line,
stmt_lo_loc.col)`). On the span `(0, 10)` of a one-line file with an
offset-to-column position service, the recorded range is
`(1, 10) - (1, 0)`, which violates the invariant
`startLine < endLine ∨ (startLine = endLine ∧ startCol ≤ endCol)` and is
not the low-to-high range the spec requires. -/
theorem C3_range_reversed :
    (lib_insert_statement_counter (fun off => ⟨1, off⟩) "cov_1"
      (Cov.new "a.js" false) ⟨0, 10⟩).1.statementMap = [⟨1, 10, 1, 0⟩] ∧
    ¬ rangeInvariant ⟨1, 10, 1, 0⟩ ∧
    rangeInvariant (get_range_from_span (fun off => ⟨1, off⟩) ⟨0, 10⟩) := by
  refine ⟨rfl, by decide, by decide⟩

/-- C7 (amended): an undecodable transform context or plugin configuration
aborts the pass; a recognized option that is present with an unexpected type
does not abort — the option falls back to its default
(`coverageVariable = "__coverage__"`, `compact = false`,
`reportLogic = false`). -/
theorem C7_config_errors :
    (∀ (cfg : Option Json) (cm : Option CommentStore) (lk : Nat → Loc)
        (p : Program), process Option.none cfg cm lk p = Option.none) ∧
    (∀ (ctxJ : Json) (cm : Option CommentStore) (lk : Nat → Loc)
        (p : Program),
        process (Option.some ctxJ) Option.none cm lk p = Option.none) ∧
    (∀ (ctxJ cfgJ : Json) (cm : Option CommentStore) (lk : Nat → Loc)
        (p : Program),
        (cfgJ.index "coverageVariable").as_str = Option.none →
        (cfgJ.index "compact").as_bool = Option.none →
        (cfgJ.index "reportLogic").as_bool = Option.none →
        (process (Option.some ctxJ) (Option.some cfgJ) cm lk p).map
            ProcessOut.options
          = Option.some ⟨"__coverage__", false, false⟩) := by
  refine ⟨fun _ _ _ _ => rfl, fun _ _ _ _ => rfl, ?_⟩
  intro ctxJ cfgJ cm lk p h1 h2 h3
  simp [process, parseInstrumentOptions, h1, h2, h3]

/-- Witness for C7 (amended): a config with `coverageVariable` present as a
number is not a decode failure; the pass proceeds with the defaults. -/
theorem C7_config_errors_w :
    ((Json.obj [("coverageVariable", Json.num 42)]).index
        "coverageVariable").as_str = Option.none ∧
    (process (Option.some (Json.obj []))
        (Option.some (Json.obj [("coverageVariable", Json.num 42)]))
        Option.none (fun off => ⟨1, off⟩) ⟨StmtList.nil, ⟨0, 0⟩⟩).map
        ProcessOut.options = Option.some ⟨"__coverage__", false, false⟩ :=
  ⟨rfl,
   C7_config_errors.2.2 (Json.obj [])
     (Json.obj [("coverageVariable", Json.num 42)]) Option.none
     (fun off => ⟨1, off⟩) ⟨StmtList.nil, ⟨0, 0⟩⟩ rfl rfl rfl⟩

/-- Counterexample for C7 as stated: with every recognized option present at
a wrong type, the pass does not abort — it returns a result whose options
are the defaults. -/
theorem C7_wrong_type_proceeds :
    (process (Option.some (Json.obj []))
        (Option.some (Json.obj [("coverageVariable", Json.bool true),
          ("compact", Json.str "x"), ("reportLogic", Json.num 1)]))
        Option.none (fun off => ⟨1, off⟩)
        ⟨StmtList.nil, ⟨0, 0⟩⟩).isSome = true ∧
    (process (Option.some (Json.obj []))
        (Option.some (Json.obj [("coverageVariable", Json.bool true),
          ("compact", Json.str "x"), ("reportLogic", Json.num 1)]))
        Option.none (fun off => ⟨1, off⟩) ⟨StmtList.nil, ⟨0, 0⟩⟩).map
        ProcessOut.options = Option.some ⟨"__coverage__", false, false⟩ :=
  ⟨rfl, rfl⟩

/-- C8: determinism of the transformer. The embedding is a pure function of
the comment store, the position service, the file path, the options, and
the program — in particular the hasher starts from a fixed seedless state —
so two runs on equal inputs emit byte-identical identifier, hash, and
serialized map; and the identifier depends only on the file path. -/
theorem C8_hash_stability (cm1 cm2 : Option CommentStore)
    (lk1 lk2 : Nat → Loc) (path1 path2 : String)
    (o1 o2 : InstrumentOptions) (p1 p2 : Program)
    (hcm : cm1 = cm2) (hlk : lk1 = lk2) (hpath : path1 = path2)
    (ho : o1 = o2) (hp : p1 = p2) :
    runEmitted cm1 lk1 path1 o1 p1 = runEmitted cm2 lk2 path2 o2 p2 ∧
    (runEmitted cm1 lk1 path1 o1 p1).varName = get_var_name_hash path1 := by
  subst hcm hlk hpath ho hp
  exact ⟨rfl, rfl⟩

theorem C8_hash_stability_w :
    runEmitted Option.none (fun off => ⟨1, off⟩) "a.js"
        ⟨"__coverage__", false, false⟩
        ⟨.cons (.exprStmt (.ident "x" ⟨0, 1⟩) ⟨0, 2⟩) .nil, ⟨0, 2⟩⟩
      = runEmitted Option.none (fun off => ⟨1, off⟩) "a.js"
        ⟨"__coverage__", false, false⟩
        ⟨.cons (.exprStmt (.ident "x" ⟨0, 1⟩) ⟨0, 2⟩) .nil, ⟨0, 2⟩⟩ ∧
    (runEmitted Option.none (fun off => ⟨1, off⟩) "a.js"
        ⟨"__coverage__", false, false⟩
        ⟨.cons (.exprStmt (.ident "x" ⟨0, 1⟩) ⟨0, 2⟩) .nil, ⟨0, 2⟩⟩).varName
      = get_var_name_hash "a.js" :=
  C8_hash_stability Option.none Option.none (fun off => ⟨1, off⟩)
    (fun off => ⟨1, off⟩) "a.js" "a.js" ⟨"__coverage__", false, false⟩
    ⟨"__coverage__", false, false⟩
    ⟨.cons (.exprStmt (.ident "x" ⟨0, 1⟩) ⟨0, 2⟩) .nil, ⟨0, 2⟩⟩
    ⟨.cons (.exprStmt (.ident "x" ⟨0, 1⟩) ⟨0, 2⟩) .nil, ⟨0, 2⟩⟩
    rfl rfl rfl rfl rfl

/-- C9 (amended): the coverage-variable identifier is `cov_` followed by the
64-bit hash of the path rendered in decimal (every character after the
`cov_` is a decimal digit, as `format!` `Display` on a `u64` produces). -/
theorem C9_identifier_decimal (name : String) :
    get_var_name_hash name = "cov_" ++ natDecStr (stdHash64 name) ∧
    (natDecStr (stdHash64 name)).data.all Char.isDigit = true :=
  ⟨rfl, natDecChars_all_digits _⟩

/-- Counterexample for C9 as stated: the identifier is not the hexadecimal
rendering the claim describes — at `"unknown.js"` the decimal identifier
from the source differs from the spec's hexadecimal form. -/
theorem C9_not_hex :
    get_var_name_hash "unknown.js" ≠ specCoverageVarNameHex "unknown.js" := by
  decide

/-- C10: when the transform context carries no string-valued `filename`, the
entry point still succeeds and proceeds with `"unknown.js"` as the filename:
it is the coverage map's path, the input of the identifier hash, and the
registry key the preamble stores the map under. -/
theorem C10_filename_fallback (ctxJ cfgJ : Json) (cm : Option CommentStore)
    (lk : Nat → Loc) (p : Program)
    (h : (ctxJ.index "filename").as_str = Option.none) :
    (process (Option.some ctxJ) (Option.some cfgJ) cm lk p).map
        ProcessOut.filename = Option.some "unknown.js" ∧
    (process (Option.some ctxJ) (Option.some cfgJ) cm lk p).map
        ProcessOut.var_name = Option.some (get_var_name_hash "unknown.js") ∧
    (process (Option.some ctxJ) (Option.some cfgJ) cm lk p).map
        (fun o => o.initialCov.path) = Option.some "unknown.js" ∧
    (∀ o pre, process (Option.some ctxJ) (Option.some cfgJ) cm lk p
        = Option.some o → o.result.preamble = Option.some pre →
        pre.registryPath = "unknown.js") := by
  have hf : processFilename ctxJ = "unknown.js" := by
    simp [processFilename, h]
  refine ⟨?_, ?_, ?_, ?_⟩
  · simp [process, hf]
  · simp [process, hf]
  · simp [process, Cov.new, hf]
  · intro o pre ho hpre
    simp only [process, Option.bind_eq_bind, Option.some_bind] at ho
    cases ho
    simp only [visit_mut_program_lib] at hpre
    split at hpre
    · simp at hpre
    · simp only [Option.some.injEq] at hpre
      rw [← hpre, hf]

/-! ## Claims about the instrumentation visitors -/

/-- C2 (amended): every single-index counter emitted by the builder —
`F().m[id]++` with `F` the file's coverage identifier — is recognized by
the injected-counter detector, is skipped by `insert_stmts_counter`, and
receives no statement counter from the expression-statement rule on a
second pass with the same identifier. -/
theorem C2_single_index_skipped (ctx : MCtx) (t : String) (id f : Nat)
    (nodes : List Node) (cov : Cov) (m : MSt) (rest : StmtList) :
    is_injected_counter_expr ctx.covFnIdent
      (create_increase_expression_expr ctx.covFnIdent t id Option.none)
      = true ∧
    is_injected_counter_stmt ctx.covFnIdent
      (counterStmt ctx.covFnIdent t id Option.none) = true ∧
    insertStmtsCounter ctx (f + 1) nodes cov
        (.cons (counterStmt ctx.covFnIdent t id Option.none) rest)
      = (insertStmtsCounter ctx f nodes cov rest).map
          (fun r => (r.1, .cons (counterStmt ctx.covFnIdent t id Option.none)
            r.2)) ∧
    mvStmtChildren ctx (f + 8) nodes m
        (counterStmt ctx.covFnIdent t id Option.none)
      = Option.some (m, counterStmt ctx.covFnIdent t id Option.none) := by
  have h1 : is_injected_counter_expr ctx.covFnIdent
      (create_increase_expression_expr ctx.covFnIdent t id Option.none)
      = true := by
    simp [create_increase_expression_expr, is_injected_counter_expr]
  have h2 : is_injected_counter_stmt ctx.covFnIdent
      (counterStmt ctx.covFnIdent t id Option.none) = true := by
    simpa [counterStmt, is_injected_counter_stmt] using h1
  refine ⟨h1, h2, ?_, ?_⟩
  · rw [insertStmtsCounter, h2]
    simp only [Bool.true_eq]
    cases h : insertStmtsCounter ctx f nodes cov rest <;> simp [h]
  · have hexpr : ∀ (m' : MSt) (ns : List Node),
        mvExpr ctx (f + 7) ns m'
          (create_increase_expression_expr ctx.covFnIdent t id Option.none)
          = Option.some (m',
            create_increase_expression_expr ctx.covFnIdent t id
              Option.none) := by
      intro m' ns
      simp [create_increase_expression_expr, mvExpr, mvExprList, mvMemberProp]
    rw [counterStmt, mvStmtChildren]
    cases hig : ctx.shouldIgnore DUMMY_SP with
    | none => simp [h1, counterStmt, hexpr]
    | some sc => cases sc <;> simp [h1, counterStmt, hexpr]

/-- Context for the C2 counterexample. -/
def c2Ctx : MCtx :=
  ⟨fun off => ⟨1, off⟩, "cov_1", ⟨"__coverage__", false, false⟩,
   fun _ => Option.none⟩

/-- Counterexample for C2 as stated: a *two-index* branch counter
`cov_1().b[0][0]++;` emitted by the builder for branch paths is not
recognized by the detector, and on a second pass `insert_stmts_counter`
does instrument it again — a fresh statement counter is allocated for it
and prepended. -/
theorem C2_branch_counter_reinstrumented :
    is_injected_counter_stmt "cov_1"
      (counterStmt "cov_1" "b" 0 (Option.some 0)) = false ∧
    insertStmtsCounter c2Ctx 12 [] (Cov.new "t.js" false)
        (.cons (counterStmt "cov_1" "b" 0 (Option.some 0)) .nil)
      = Option.some (⟨"t.js", [⟨1, 0, 1, 0⟩], [], [], false, Option.none⟩,
          .cons (counterStmt "cov_1" "s" 0 Option.none)
            (.cons (counterStmt "cov_1" "b" 0 (Option.some 0)) .nil)) :=
  ⟨rfl, rfl⟩

/-- C4 (amended): for an initializer with a source span that contains no
block statement, no statement, and no hoistable function expression, the
declarator coverage rule allocates one statement id from the initializer's
span and replaces the initializer with the parenthesized sequence
`(F().s[id]++, init)`, marks nothing for prepending (no second statement
counter for the outer declarator statement), and adds no function entry. -/
theorem C4_declarator_wrap (ctx : MCtx) (nodes : List Node) (m : MSt)
    (e : Expr) (sp : Span)
    (hsp : getExprSpan e = Option.some sp)
    (hb : containsBlockE e = false)
    (hs : containsStmtE e = false)
    (hh : containsHoistE e = false)
    (hn : nodes ≠ []) :
    cover_statement ctx nodes m e = Option.some
      (⟨(m.cov.new_statement (get_range_from_span ctx.lookup sp)).1,
        m.before⟩,
       .paren (.seq (.cons (create_increase_expression_expr ctx.covFnIdent
           "s" m.cov.statementMap.length Option.none) (.cons e .nil))
         DUMMY_SP) DUMMY_SP) ∧
    (m.cov.new_statement (get_range_from_span ctx.lookup sp)).1.fnMap
      = m.cov.fnMap := by
  constructor
  · unfold cover_statement
    rw [hsp]
    simp only [hb, Bool.false_eq_true, if_false, hs, hh, if_neg,
      Bool.false_and]
    cases hL : nodes.getLast? with
    | none =>
        exact absurd (List.getLast?_eq_none_iff.mp hL) hn
    | some parent =>
        simp [exprFinderFires, replace_expr_with_stmt_counter, hsp,
          Cov.new_statement]
  · simp [Cov.new_statement]

/-- Context for the C4 theorems. -/
def c4Ctx : MCtx :=
  ⟨fun off => ⟨1, off⟩, "cov_1", ⟨"__coverage__", false, false⟩,
   fun _ => Option.none⟩

/-- Witness for C4 at the E2 initializer `1` (from `var x = 1;`): one
statement entry, no function entry, initializer replaced by
`(cov_1().s[0]++, 1)`, nothing prepended. -/
theorem C4_declarator_wrap_w :
    getExprSpan (Expr.lit 1 ⟨8, 9⟩) = Option.some ⟨8, 9⟩ ∧
    cover_statement c4Ctx [.program, .stmts, .varDecl, .varDeclarator]
        ⟨Cov.new "t.js" false, .nil⟩ (Expr.lit 1 ⟨8, 9⟩)
      = Option.some
        (⟨⟨"t.js", [⟨1, 8, 1, 9⟩], [], [], false, Option.none⟩, .nil⟩,
         .paren (.seq (.cons (create_increase_expression_expr "cov_1" "s" 0
             Option.none) (.cons (Expr.lit 1 ⟨8, 9⟩) .nil)) DUMMY_SP)
           DUMMY_SP) :=
  ⟨rfl,
   (C4_declarator_wrap c4Ctx [.program, .stmts, .varDecl, .varDeclarator]
     ⟨Cov.new "t.js" false, .nil⟩ (Expr.lit 1 ⟨8, 9⟩) ⟨8, 9⟩ rfl rfl rfl rfl
     (by decide)).1⟩

/-- Counterexample for C4 as stated: a function-expression initializer
(`var x = function () {};`) contains a block statement, so
`cover_statement` takes the block branch: the initializer is left in place
unreplaced and a statement counter *is* emitted for prepending before the
declarator statement. -/
theorem C4_function_init_not_wrapped :
    cover_statement c4Ctx [.program, .stmts, .varDecl, .varDeclarator]
        ⟨Cov.new "t.js" false, .nil⟩ (Expr.fnExpr .nil ⟨14, 16⟩ ⟨8, 16⟩)
      = Option.some
        (⟨⟨"t.js", [⟨1, 8, 1, 16⟩], [], [], false, Option.none⟩,
          .cons (counterStmt "cov_1" "s" 0 Option.none) .nil⟩,
         Expr.fnExpr .nil ⟨14, 16⟩ ⟨8, 16⟩) ∧
    StmtList.cons (counterStmt "cov_1" "s" 0 Option.none) .nil
      ≠ StmtList.nil :=
  ⟨rfl, fun h => StmtList.noConfusion h⟩

/-- Context for the C6 theorem: `reportLogic` enabled. -/
def c6Ctx : MCtx :=
  ⟨fun off => ⟨1, off⟩, "cov_1", ⟨"__coverage__", false, true⟩,
   fun _ => Option.none⟩

/-- C6: with `reportLogic` enabled, reaching a leaf operand of a logical
expression raises no error at all — the `report_logic` arm of
`wrap_bin_expr_with_branch_counter` is an empty block (its body is a
commented-out TODO). On `a || b` the traversal returns normally with both
leaves unwrapped and the allocated `BinaryExpr` branch entry left with zero
locations, silently emitting no counter, where the claim requires a fatal
`UnsupportedConstruct`. -/
theorem C6_report_logic_silent :
    mvExpr c6Ctx 10 [] ⟨Cov.new "t.js" true, .nil⟩
        (.bin .logicalOr (.ident "a" ⟨0, 1⟩) (.ident "b" ⟨5, 6⟩) ⟨0, 6⟩)
      = Option.some
        (⟨⟨"t.js", [], [],
           [⟨.binaryExpr, ⟨1, 0, 1, 6⟩, []⟩], true, Option.none⟩, .nil⟩,
         .bin .logicalOr (.ident "a" ⟨0, 1⟩) (.ident "b" ⟨5, 6⟩) ⟨0, 6⟩) ∧
    wrap_bin_expr_with_branch_counter c6Ctx 0
        (⟨"t.js", [], [], [⟨.binaryExpr, ⟨1, 0, 1, 6⟩, []⟩], true,
          Option.none⟩) (.ident "a" ⟨0, 1⟩)
      = (⟨"t.js", [], [], [⟨.binaryExpr, ⟨1, 0, 1, 6⟩, []⟩], true,
          Option.none⟩, .ident "a" ⟨0, 1⟩) :=
  ⟨rfl, rfl⟩

/-! ## Branch-path accounting (claim C5)

`isChain op e` singles out the pure logical chains of one operator: every
internal node is a logical binary expression with operator `op`, and every
leaf operand contains no logical expression and has a source span.
`leafCount` counts the leaf operands of such a chain. -/

/-- A leaf operand of a logical chain: contains no logical expression and
has a source span. -/
def isChainLeaf (e : Expr) : Bool :=
  !containsLogicalE e && (getExprSpan e).isSome

/-- A pure same-operator logical chain with instrumentable leaves. -/
def isChain (op : BinOp) : Expr → Bool
  | .bin op' l r _ => op' = op && isChain op l && isChain op r
  | .paren inner sp => isChainLeaf (Expr.paren inner sp)
  | .lit v sp => isChainLeaf (Expr.lit v sp)
  | .ident n sp => isChainLeaf (Expr.ident n sp)
  | .call c1 args sp => isChainLeaf (Expr.call c1 args sp)
  | .member o p sp => isChainLeaf (Expr.member o p sp)
  | .update uop pfx a sp => isChainLeaf (Expr.update uop pfx a sp)
  | .seq es sp => isChainLeaf (Expr.seq es sp)
  | .fnExpr body bsp sp => isChainLeaf (Expr.fnExpr body bsp sp)

/-- The number of leaf operands of a logical chain. -/
def leafCount (op : BinOp) : Expr → Nat
  | .bin op' l r _ => if op' = op then leafCount op l + leafCount op r else 1
  | .paren inner sp => 1
  | .lit v sp => 1
  | .ident n sp => 1
  | .call c1 args sp => 1
  | .member o p sp => 1
  | .update uop pfx a sp => 1
  | .seq es sp => 1
  | .fnExpr body bsp sp => 1

/-- The branch map grows monotonically, and entries that existed before a
traversal step are left exactly as they were. -/
def branchKept (c c' : Cov) : Prop :=
  c.branchMap.length ≤ c'.branchMap.length ∧
  ∀ i, i < c.branchMap.length → c'.branchMap[i]? = c.branchMap[i]?

/-- Every `If`-kind entry allocated during a traversal step ends the step
with exactly two locations. -/
def newIfComplete (c c' : Cov) : Prop :=
  ∀ i en, c.branchMap.length ≤ i → c'.branchMap[i]? = Option.some en →
    en.btype = .ifKind → en.locations.length = 2

/-- The combined branch-map contract of one traversal step. -/
def covStep (c c' : Cov) : Prop := branchKept c c' ∧ newIfComplete c c'

theorem covStep_refl (c : Cov) : covStep c c := by
  refine ⟨⟨Nat.le_refl _, fun _ _ => rfl⟩, fun i en hle hget hif => ?_⟩
  exfalso
  rw [List.getElem?_eq_none hle] at hget
  exact Option.noConfusion hget

theorem covStep_of_eq {c c' : Cov} (h : c'.branchMap = c.branchMap) :
    covStep c c' := by
  refine ⟨⟨by rw [h], fun i _ => by rw [h]⟩, fun i en hle hget hif => ?_⟩
  exfalso
  have : c'.branchMap[i]? = Option.none :=
    List.getElem?_eq_none (by rw [h]; exact hle)
  rw [this] at hget
  exact Option.noConfusion hget

theorem covStep_trans {a b c : Cov} (h1 : covStep a b) (h2 : covStep b c) :
    covStep a c := by
  obtain ⟨⟨hlen1, hpres1⟩, hnew1⟩ := h1
  obtain ⟨⟨hlen2, hpres2⟩, hnew2⟩ := h2
  refine ⟨⟨Nat.le_trans hlen1 hlen2, fun i hi => ?_⟩,
    fun i en hle hget hif => ?_⟩
  · rw [hpres2 i (Nat.lt_of_lt_of_le hi hlen1), hpres1 i hi]
  · by_cases hib : i < b.branchMap.length
    · exact hnew1 i en hle (by rw [← hpres2 i hib]; exact hget) hif
    · exact hnew2 i en (Nat.le_of_not_lt hib) hget hif

/-- `add_branch_path` preserves the branch map's length. -/
theorem add_branch_path_length (c : Cov) (b : Nat) (r : Range) :
    (c.add_branch_path b r).1.branchMap.length = c.branchMap.length := by
  unfold Cov.add_branch_path
  cases h : c.branchMap[b]? <;> simp

/-- `add_branch_path` leaves other entries untouched. -/
theorem add_branch_path_ne (c : Cov) (b : Nat) (r : Range) (i : Nat)
    (h : i ≠ b) :
    (c.add_branch_path b r).1.branchMap[i]? = c.branchMap[i]? := by
  unfold Cov.add_branch_path
  cases hb : c.branchMap[b]? with
  | none => rfl
  | some en => simp [List.getElem?_set_ne (Ne.symm h)]

/-- `add_branch_path` appends the range to the addressed entry. -/
theorem add_branch_path_at (c : Cov) (b : Nat) (r : Range)
    (en : BranchEntry) (h : c.branchMap[b]? = Option.some en) :
    (c.add_branch_path b r).1.branchMap[b]?
      = Option.some ⟨en.btype, en.loc, en.locations ++ [r]⟩ := by
  unfold Cov.add_branch_path
  rw [h]
  have hb : b < c.branchMap.length := by
    rcases List.getElem?_eq_some_iff.mp h with ⟨hlt, _⟩
    exact hlt
  simp [List.getElem?_set_self (by simpa using hb)]

/-- `replace_expr_with_branch_counter` only appends to the addressed
entry's locations (or does nothing when the expression has no span). -/
theorem replace_branch_shape (ctx : MCtx) (cov : Cov) (b : Nat) (e : Expr) :
    (replace_expr_with_branch_counter ctx cov b e).1.branchMap.length
      = cov.branchMap.length ∧
    (∀ i, i ≠ b →
      (replace_expr_with_branch_counter ctx cov b e).1.branchMap[i]?
        = cov.branchMap[i]?) ∧
    (∀ en, cov.branchMap[b]? = Option.some en →
      ∃ locs, (replace_expr_with_branch_counter ctx cov b e).1.branchMap[b]?
        = Option.some ⟨en.btype, en.loc, en.locations ++ locs⟩) := by
  unfold replace_expr_with_branch_counter
  cases hsp : getExprSpan e with
  | none =>
      exact ⟨rfl, fun _ _ => rfl, fun en h => ⟨[], by simp [h]⟩⟩
  | some sp =>
      refine ⟨add_branch_path_length _ _ _,
        fun i hi => add_branch_path_ne _ _ _ _ hi, fun en h => ?_⟩
      exact ⟨[get_range_from_span ctx.lookup sp],
        add_branch_path_at _ _ _ _ h⟩

/-- `wrapBinLeaf` preserves the branch map's length, leaves entries other
than its branch untouched, and only appends to its branch's locations. -/
theorem wrapBinLeaf_shape (ctx : MCtx) (b : Nat) (e : Expr) (cov : Cov) :
    (wrapBinLeaf ctx b cov e).1.branchMap.length = cov.branchMap.length ∧
    (∀ i, i ≠ b →
      (wrapBinLeaf ctx b cov e).1.branchMap[i]? = cov.branchMap[i]?) ∧
    (∀ en, cov.branchMap[b]? = Option.some en →
      ∃ locs, (wrapBinLeaf ctx b cov e).1.branchMap[b]?
        = Option.some ⟨en.btype, en.loc, en.locations ++ locs⟩) := by
  unfold wrapBinLeaf
  split
  · exact ⟨rfl, fun _ _ => rfl, fun en h => ⟨[], by simp [h]⟩⟩
  · exact replace_branch_shape ctx cov b _

/-- `wrap_bin_expr_with_branch_counter` preserves the branch map's length,
leaves entries other than its branch untouched, and only appends to its
branch's locations. -/
theorem wrapBin_shape (ctx : MCtx) (b : Nat) :
    ∀ (e : Expr) (cov : Cov),
    (wrap_bin_expr_with_branch_counter ctx b cov e).1.branchMap.length
      = cov.branchMap.length ∧
    (∀ i, i ≠ b →
      (wrap_bin_expr_with_branch_counter ctx b cov e).1.branchMap[i]?
        = cov.branchMap[i]?) ∧
    (∀ en, cov.branchMap[b]? = Option.some en →
      ∃ locs, (wrap_bin_expr_with_branch_counter ctx b cov e).1.branchMap[b]?
        = Option.some ⟨en.btype, en.loc, en.locations ++ locs⟩)
  | .bin op l r sp, cov => by
      rw [wrap_bin_expr_with_branch_counter]
      split
      · obtain ⟨hl1, hl2, hl3⟩ := wrapBin_shape ctx b l cov
        obtain ⟨hr1, hr2, hr3⟩ := wrapBin_shape ctx b r
          (wrap_bin_expr_with_branch_counter ctx b cov l).1
        refine ⟨by rw [hr1, hl1], fun i hi => by rw [hr2 i hi, hl2 i hi],
          fun en h => ?_⟩
        obtain ⟨locs1, h1⟩ := hl3 en h
        obtain ⟨locs2, h2⟩ := hr3 _ h1
        exact ⟨locs1 ++ locs2, by simpa [List.append_assoc] using h2⟩
      · exact wrapBinLeaf_shape ctx b _ cov
  | .paren inner sp, cov => by
      rw [wrap_bin_expr_with_branch_counter]
      split
      · exact wrapBin_shape ctx b inner cov
      · exact wrapBinLeaf_shape ctx b _ cov
  | .lit v sp, cov => by
      rw [wrap_bin_expr_with_branch_counter]
      split
      · exact ⟨rfl, fun _ _ => rfl, fun en h => ⟨[], by simp [h]⟩⟩
      · exact wrapBinLeaf_shape ctx b _ cov
  | .ident n sp, cov => by
      rw [wrap_bin_expr_with_branch_counter]
      split
      · exact ⟨rfl, fun _ _ => rfl, fun en h => ⟨[], by simp [h]⟩⟩
      · exact wrapBinLeaf_shape ctx b _ cov
  | .call c1 args sp, cov => by
      rw [wrap_bin_expr_with_branch_counter]
      split
      · exact ⟨rfl, fun _ _ => rfl, fun en h => ⟨[], by simp [h]⟩⟩
      · exact wrapBinLeaf_shape ctx b _ cov
  | .member o p sp, cov => by
      rw [wrap_bin_expr_with_branch_counter]
      split
      · exact ⟨rfl, fun _ _ => rfl, fun en h => ⟨[], by simp [h]⟩⟩
      · exact wrapBinLeaf_shape ctx b _ cov
  | .update op pfx a sp, cov => by
      rw [wrap_bin_expr_with_branch_counter]
      split
      · exact ⟨rfl, fun _ _ => rfl, fun en h => ⟨[], by simp [h]⟩⟩
      · exact wrapBinLeaf_shape ctx b _ cov
  | .seq es sp, cov => by
      rw [wrap_bin_expr_with_branch_counter]
      split
      · exact ⟨rfl, fun _ _ => rfl, fun en h => ⟨[], by simp [h]⟩⟩
      · exact wrapBinLeaf_shape ctx b _ cov
  | .fnExpr body bsp sp, cov => by
      rw [wrap_bin_expr_with_branch_counter]
      split
      · exact ⟨rfl, fun _ _ => rfl, fun en h => ⟨[], by simp [h]⟩⟩
      · exact wrapBinLeaf_shape ctx b _ cov

/-- On a pure same-operator logical chain, with `report_logic` disabled,
`wrap_bin_expr_with_branch_counter` appends exactly one location per leaf
operand to its branch's entry. -/
theorem wrapBin_chain_count :
    ∀ (e : Expr) (ctx : MCtx) (op : BinOp) (b : Nat) (cov : Cov)
      (en : BranchEntry),
    ctx.opts.report_logic = false → op.isLogical = true →
    isChain op e = true →
    cov.branchMap[b]? = Option.some en →
    ∃ locs : List Range,
      (wrap_bin_expr_with_branch_counter ctx b cov e).1.branchMap[b]?
        = Option.some ⟨en.btype, en.loc, en.locations ++ locs⟩ ∧
      locs.length = leafCount op e
  | .bin op' l r sp, ctx, op, b, cov, en => by
      intro hrl hop hchain hget
      rw [isChain] at hchain
      simp only [Bool.and_eq_true, decide_eq_true_eq] at hchain
      obtain ⟨⟨hopeq, hcl⟩, hcr⟩ := hchain
      subst hopeq
      rw [wrap_bin_expr_with_branch_counter]
      rw [if_pos (by simp [containsLogicalE, hop])]
      obtain ⟨locs1, h1, hlen1⟩ := wrapBin_chain_count l ctx op' b cov en
        hrl hop hcl hget
      obtain ⟨locs2, h2, hlen2⟩ := wrapBin_chain_count r ctx op' b
        (wrap_bin_expr_with_branch_counter ctx b cov l).1
        ⟨en.btype, en.loc, en.locations ++ locs1⟩ hrl hop hcr h1
      refine ⟨locs1 ++ locs2, ?_, ?_⟩
      · simpa [List.append_assoc] using h2
      · rw [List.length_append, hlen1, hlen2, leafCount, if_pos rfl]
  | .paren inner sp, ctx, op, b, cov, en => by
      intro hrl hop hchain hget
      rw [isChain] at hchain
      unfold isChainLeaf at hchain
      simp only [Bool.and_eq_true, Bool.not_eq_true'] at hchain
      obtain ⟨hnl, hsp⟩ := hchain
      rw [wrap_bin_expr_with_branch_counter, if_neg (by simp [hnl])]
      unfold wrapBinLeaf
      rw [if_neg (by rw [hrl]; exact Bool.false_ne_true)]
      unfold replace_expr_with_branch_counter
      cases hspv : getExprSpan (Expr.paren inner sp) with
      | none => rw [hspv] at hsp; exact absurd hsp (by simp)
      | some spv =>
          exact ⟨[get_range_from_span ctx.lookup spv],
            add_branch_path_at _ _ _ _ hget, rfl⟩
  | .lit v sp, ctx, op, b, cov, en => by
      intro hrl hop hchain hget
      rw [isChain] at hchain
      unfold isChainLeaf at hchain
      simp only [Bool.and_eq_true, Bool.not_eq_true'] at hchain
      obtain ⟨hnl, hsp⟩ := hchain
      rw [wrap_bin_expr_with_branch_counter, if_neg (by simp [hnl])]
      unfold wrapBinLeaf
      rw [if_neg (by rw [hrl]; exact Bool.false_ne_true)]
      unfold replace_expr_with_branch_counter
      cases hspv : getExprSpan (Expr.lit v sp) with
      | none => rw [hspv] at hsp; exact absurd hsp (by simp)
      | some spv =>
          exact ⟨[get_range_from_span ctx.lookup spv],
            add_branch_path_at _ _ _ _ hget, rfl⟩
  | .ident n sp, ctx, op, b, cov, en => by
      intro hrl hop hchain hget
      rw [isChain] at hchain
      unfold isChainLeaf at hchain
      simp only [Bool.and_eq_true, Bool.not_eq_true'] at hchain
      obtain ⟨hnl, hsp⟩ := hchain
      rw [wrap_bin_expr_with_branch_counter, if_neg (by simp [hnl])]
      unfold wrapBinLeaf
      rw [if_neg (by rw [hrl]; exact Bool.false_ne_true)]
      unfold replace_expr_with_branch_counter
      cases hspv : getExprSpan (Expr.ident n sp) with
      | none => rw [hspv] at hsp; exact absurd hsp (by simp)
      | some spv =>
          exact ⟨[get_range_from_span ctx.lookup spv],
            add_branch_path_at _ _ _ _ hget, rfl⟩
  | .call c1 args sp, ctx, op, b, cov, en => by
      intro hrl hop hchain hget
      rw [isChain] at hchain
      unfold isChainLeaf at hchain
      simp only [Bool.and_eq_true, Bool.not_eq_true'] at hchain
      obtain ⟨hnl, hsp⟩ := hchain
      rw [wrap_bin_expr_with_branch_counter, if_neg (by simp [hnl])]
      unfold wrapBinLeaf
      rw [if_neg (by rw [hrl]; exact Bool.false_ne_true)]
      unfold replace_expr_with_branch_counter
      cases hspv : getExprSpan (Expr.call c1 args sp) with
      | none => rw [hspv] at hsp; exact absurd hsp (by simp)
      | some spv =>
          exact ⟨[get_range_from_span ctx.lookup spv],
            add_branch_path_at _ _ _ _ hget, rfl⟩
  | .member o p sp, ctx, op, b, cov, en => by
      intro hrl hop hchain hget
      rw [isChain] at hchain
      unfold isChainLeaf at hchain
      simp only [Bool.and_eq_true, Bool.not_eq_true'] at hchain
      obtain ⟨hnl, hsp⟩ := hchain
      rw [wrap_bin_expr_with_branch_counter, if_neg (by simp [hnl])]
      unfold wrapBinLeaf
      rw [if_neg (by rw [hrl]; exact Bool.false_ne_true)]
      unfold replace_expr_with_branch_counter
      cases hspv : getExprSpan (Expr.member o p sp) with
      | none => rw [hspv] at hsp; exact absurd hsp (by simp)
      | some spv =>
          exact ⟨[get_range_from_span ctx.lookup spv],
            add_branch_path_at _ _ _ _ hget, rfl⟩
  | .update uop pfx a sp, ctx, op, b, cov, en => by
      intro hrl hop hchain hget
      rw [isChain] at hchain
      unfold isChainLeaf at hchain
      simp only [Bool.and_eq_true, Bool.not_eq_true'] at hchain
      obtain ⟨hnl, hsp⟩ := hchain
      rw [wrap_bin_expr_with_branch_counter, if_neg (by simp [hnl])]
      unfold wrapBinLeaf
      rw [if_neg (by rw [hrl]; exact Bool.false_ne_true)]
      unfold replace_expr_with_branch_counter
      cases hspv : getExprSpan (Expr.update uop pfx a sp) with
      | none => rw [hspv] at hsp; exact absurd hsp (by simp)
      | some spv =>
          exact ⟨[get_range_from_span ctx.lookup spv],
            add_branch_path_at _ _ _ _ hget, rfl⟩
  | .seq es sp, ctx, op, b, cov, en => by
      intro hrl hop hchain hget
      rw [isChain] at hchain
      unfold isChainLeaf at hchain
      simp only [Bool.and_eq_true, Bool.not_eq_true'] at hchain
      obtain ⟨hnl, hsp⟩ := hchain
      rw [wrap_bin_expr_with_branch_counter, if_neg (by simp [hnl])]
      unfold wrapBinLeaf
      rw [if_neg (by rw [hrl]; exact Bool.false_ne_true)]
      unfold replace_expr_with_branch_counter
      cases hspv : getExprSpan (Expr.seq es sp) with
      | none => rw [hspv] at hsp; exact absurd hsp (by simp)
      | some spv =>
          exact ⟨[get_range_from_span ctx.lookup spv],
            add_branch_path_at _ _ _ _ hget, rfl⟩
  | .fnExpr body bsp sp, ctx, op, b, cov, en => by
      intro hrl hop hchain hget
      rw [isChain] at hchain
      unfold isChainLeaf at hchain
      simp only [Bool.and_eq_true, Bool.not_eq_true'] at hchain
      obtain ⟨hnl, hsp⟩ := hchain
      rw [wrap_bin_expr_with_branch_counter, if_neg (by simp [hnl])]
      unfold wrapBinLeaf
      rw [if_neg (by rw [hrl]; exact Bool.false_ne_true)]
      unfold replace_expr_with_branch_counter
      cases hspv : getExprSpan (Expr.fnExpr body bsp sp) with
      | none => rw [hspv] at hsp; exact absurd hsp (by simp)
      | some spv =>
          exact ⟨[get_range_from_span ctx.lookup spv],
            add_branch_path_at _ _ _ _ hget, rfl⟩

theorem new_statement_branchMap (c : Cov) (r : Range) :
    (c.new_statement r).1.branchMap = c.branchMap := rfl

theorem new_function_branchMap (c : Cov) (n : Option String) (d b : Range) :
    (c.new_function n d b).1.branchMap = c.branchMap := rfl

theorem mark_prepend_branchMap (ctx : MCtx) (sp : Span) (m : MSt) :
    (mark_prepend_stmt_counter ctx sp m).cov.branchMap = m.cov.branchMap :=
  rfl

theorem replace_stmt_branchMap (ctx : MCtx) (cov : Cov) (e : Expr) :
    (replace_expr_with_stmt_counter ctx cov e).1.branchMap = cov.branchMap := by
  unfold replace_expr_with_stmt_counter
  cases getExprSpan e <;> rfl

/-- `cover_statement` never touches the branch map. -/
theorem cover_statement_branchMap (ctx : MCtx) (nodes : List Node) (m : MSt)
    (e : Expr) (m' : MSt) (e' : Expr)
    (h : cover_statement ctx nodes m e = Option.some (m', e')) :
    m'.cov.branchMap = m.cov.branchMap := by
  unfold cover_statement at h
  cases hsp : getExprSpan e with
  | none =>
      simp only [hsp] at h
      cases h
      rfl
  | some sp =>
      simp only [hsp] at h
      by_cases hblock : containsBlockE e
      · rw [if_pos hblock] at h
        cases h
        exact mark_prepend_branchMap ctx sp m
      · rw [if_neg hblock] at h
        have hm1 : (if containsStmtE e = true then
            mark_prepend_stmt_counter ctx sp m else m).cov.branchMap
            = m.cov.branchMap := by
          split <;> rfl
        cases hL : nodes.getLast? with
        | none =>
            simp only [hL] at h
            exact Option.noConfusion h
        | some parent =>
            simp only [hL] at h
            by_cases hho : (containsHoistE e
                && decide (parent = Node.varDeclarator)) = true
            · rw [if_pos hho] at h
              cases hp3 : (if 3 ≤ nodes.length then
                  nodes.get? (nodes.length - 3) else Option.none) with
              | none =>
                  simp only [hp3] at h
                  cases h
                  rw [replace_stmt_branchMap]
                  exact hm1
              | some q3 =>
                  simp only [hp3] at h
                  cases hp4 : (if 4 ≤ nodes.length then
                      nodes.get? (nodes.length - 4) else Option.none) with
                  | none =>
                      simp only [hp4] at h
                      cases h
                      exact hm1
                  | some q4 =>
                      simp only [hp4] at h
                      cases q4 <;> simp only [Option.some.injEq,
                          Prod.mk.injEq] at h <;>
                        obtain ⟨h1, h2⟩ := h <;> rw [← h1] <;>
                        simp only [mark_prepend_branchMap, hm1]
            · rw [if_neg hho] at h
              rw [if_pos (show exprFinderFires e = true from rfl)] at h
              cases h
              rw [replace_stmt_branchMap]
              exact hm1

/-- The contract of the `if`-rule's `wrap_with_counter` closure on the
branch map: entries other than its branch are kept, its branch's entry gets
exactly the `if`'s range appended, and newly-allocated `If` entries are
complete. -/
def wrapKept (b : Nat) (rg : Range) (c c' : Cov) : Prop :=
  c.branchMap.length ≤ c'.branchMap.length ∧
  (∀ i, i < c.branchMap.length → i ≠ b →
    c'.branchMap[i]? = c.branchMap[i]?) ∧
  (∀ en, c.branchMap[b]? = Option.some en →
    c'.branchMap[b]? = Option.some ⟨en.btype, en.loc, en.locations ++ [rg]⟩) ∧
  newIfComplete c c'

/-- Composing the `if`-rule: allocate the `If` branch, wrap both arms (one
path each), visit the test. The whole rule is a `covStep`. -/
theorem ifRuleCovStep {cov0 cov1 covC covA covF : Cov} {rg : Range}
    (h1 : cov1.branchMap = cov0.branchMap ++ [⟨.ifKind, rg, []⟩])
    (hWC : wrapKept cov0.branchMap.length rg cov1 covC)
    (hWA : wrapKept cov0.branchMap.length rg covC covA)
    (hT : covStep covA covF) :
    covStep cov0 covF := by
  obtain ⟨hmC, hneC, hatC, hnewC⟩ := hWC
  obtain ⟨hmA, hneA, hatA, hnewA⟩ := hWA
  obtain ⟨⟨hmT, hpT⟩, hnewT⟩ := hT
  have hlen1 : cov1.branchMap.length = cov0.branchMap.length + 1 := by
    rw [h1]; simp
  have hn1 : cov1.branchMap[cov0.branchMap.length]?
      = Option.some ⟨.ifKind, rg, []⟩ := by
    rw [h1]; exact List.getElem?_concat_length _ _
  have hnC : covC.branchMap[cov0.branchMap.length]?
      = Option.some ⟨.ifKind, rg, [rg]⟩ := by
    simpa using hatC _ hn1
  have hnA : covA.branchMap[cov0.branchMap.length]?
      = Option.some ⟨.ifKind, rg, [rg, rg]⟩ := by
    simpa using hatA _ hnC
  refine ⟨⟨by omega, fun i hi => ?_⟩, fun i en hle hget hif => ?_⟩
  · have hi1 : i < cov1.branchMap.length := by omega
    have hiC : i < covC.branchMap.length := by omega
    have hiA : i < covA.branchMap.length := by omega
    rw [hpT i hiA, hneA i hiC (by omega), hneC i hi1 (by omega), h1,
      List.getElem?_append_left hi]
  · by_cases hiA : i < covA.branchMap.length
    · have hgetA : covA.branchMap[i]? = Option.some en := by
        rw [← hpT i hiA]; exact hget
      by_cases hin : i = cov0.branchMap.length
      · subst hin
        rw [hnA] at hgetA
        cases hgetA
        simp
      · by_cases hiC : i < covC.branchMap.length
        · have hgetC : covC.branchMap[i]? = Option.some en := by
            rw [← hneA i hiC hin]; exact hgetA
          by_cases hi1 : i < cov1.branchMap.length
          · omega
          · exact hnewC i en (Nat.le_of_not_lt hi1) hgetC hif
        · exact hnewA i en (Nat.le_of_not_lt hiC) hgetA hif
    · exact hnewT i en (Nat.le_of_not_lt hiA) hget hif

/-- The bin-expression rule (allocate a `BinaryExpr` branch and wrap both
operands with the same branch id) is a `covStep`: it appends exactly one
non-`If` entry. -/
theorem binRuleCovStep (ctx : MCtx) (cov0 : Cov) (rg : Range) (l r : Expr) :
    covStep cov0
      (wrap_bin_expr_with_branch_counter ctx cov0.branchMap.length
        (wrap_bin_expr_with_branch_counter ctx cov0.branchMap.length
          { cov0 with branchMap := cov0.branchMap ++ [⟨.binaryExpr, rg, []⟩] }
          l).1 r).1 := by
  obtain ⟨sL1, sL2, sL3⟩ := wrapBin_shape ctx cov0.branchMap.length l
    { cov0 with branchMap := cov0.branchMap ++ [⟨.binaryExpr, rg, []⟩] }
  obtain ⟨sR1, sR2, sR3⟩ := wrapBin_shape ctx cov0.branchMap.length r
    (wrap_bin_expr_with_branch_counter ctx cov0.branchMap.length
      { cov0 with branchMap := cov0.branchMap ++ [⟨.binaryExpr, rg, []⟩] }
      l).1
  have hlen1 : ({ cov0 with branchMap :=
      cov0.branchMap ++ [⟨.binaryExpr, rg, []⟩] } : Cov).branchMap.length
      = cov0.branchMap.length + 1 := by simp
  refine ⟨⟨by omega, fun i hi => ?_⟩, fun i en hle hget hif => ?_⟩
  · rw [sR2 i (by omega), sL2 i (by omega)]
    exact List.getElem?_append_left hi
  · by_cases hin : i = cov0.branchMap.length
    · subst hin
      have h1 : ({ cov0 with branchMap :=
          cov0.branchMap ++ [⟨.binaryExpr, rg, []⟩] } :
            Cov).branchMap[cov0.branchMap.length]?
          = Option.some ⟨.binaryExpr, rg, []⟩ :=
        List.getElem?_concat_length _ _
      obtain ⟨locs1, hL⟩ := sL3 _ h1
      obtain ⟨locs2, hR⟩ := sR3 _ hL
      rw [hR] at hget
      cases hget
      exact absurd hif (by simp)
    · exfalso
      have : (wrap_bin_expr_with_branch_counter ctx cov0.branchMap.length
          (wrap_bin_expr_with_branch_counter ctx cov0.branchMap.length
            { cov0 with branchMap :=
              cov0.branchMap ++ [⟨.binaryExpr, rg, []⟩] } l).1
          r).1.branchMap.length = cov0.branchMap.length + 1 := by
        rw [sR1, sL1, hlen1]
      rw [List.getElem?_eq_none (by omega)] at hget
      exact Option.noConfusion hget

/-- Assembling a `wrapKept` contract from the `add_branch_path` call and the
`covStep` of the traversal that follows it. -/
theorem wrapKept_assemble (cov : Cov) (b : Nat) (rg : Range) (cov2 : Cov)
    (hb : b < cov.branchMap.length)
    (hstep : covStep (cov.add_branch_path b rg).1 cov2) :
    wrapKept b rg cov cov2 := by
  have hlen := add_branch_path_length cov b rg
  obtain ⟨⟨hm, hp⟩, hn⟩ := hstep
  refine ⟨by omega, fun i hi hib => ?_, fun en hen => ?_,
    fun i en hle hget hif => ?_⟩
  · rw [hp i (by omega), add_branch_path_ne cov b rg i hib]
  · rw [hp b (by omega), add_branch_path_at cov b rg en hen]
  · exact hn i en (by omega) hget hif

/-- The branch-map contract of the whole traversal, by induction on fuel:
with no ignore hints anywhere, every traversal function preserves existing
branch entries and completes every `If` entry it allocates with exactly two
locations, and the `if`-rule's arm wrapper satisfies its `wrapKept`
contract. -/
theorem mvCovStep (ctx : MCtx)
    (hIg : ∀ sp, ctx.shouldIgnore sp = Option.none) :
    ∀ f : Nat,
    (∀ nodes m e r, mvExpr ctx f nodes m e = Option.some r →
      covStep m.cov r.1.cov) ∧
    (∀ nodes m es r, mvExprList ctx f nodes m es = Option.some r →
      covStep m.cov r.1.cov) ∧
    (∀ nodes m p r, mvMemberProp ctx f nodes m p = Option.some r →
      covStep m.cov r.1.cov) ∧
    (∀ nodes m oe r, mvOptExpr ctx f nodes m oe = Option.some r →
      covStep m.cov r.1.cov) ∧
    (∀ nodes m s r, mvStmtChildren ctx f nodes m s = Option.some r →
      covStep m.cov r.1.cov) ∧
    (∀ nodes m ds r, mvDeclList ctx f nodes m ds = Option.some r →
      covStep m.cov r.1.cov) ∧
    (∀ nodes cov sl r, insertStmtsCounter ctx f nodes cov sl = Option.some r →
      covStep cov r.1) ∧
    (∀ nodes b rg cov s r, b < cov.branchMap.length →
      wrapWithCounter ctx f nodes b rg cov s = Option.some r →
      wrapKept b rg cov r.1) := by
  intro f
  induction f with
  | zero =>
      exact ⟨fun _ _ _ _ h => Option.noConfusion h,
        fun _ _ _ _ h => Option.noConfusion h,
        fun _ _ _ _ h => Option.noConfusion h,
        fun _ _ _ _ h => Option.noConfusion h,
        fun _ _ _ _ h => Option.noConfusion h,
        fun _ _ _ _ h => Option.noConfusion h,
        fun _ _ _ _ h => Option.noConfusion h,
        fun _ _ _ _ _ _ _ h => Option.noConfusion h⟩
  | succ f ih =>
      obtain ⟨ihE, ihEL, ihMP, ihOE, ihS, ihD, ihI, ihW⟩ := ih
      refine ⟨?_, ?_, ?_, ?_, ?_, ?_, ?_, ?_⟩
      · -- mvExpr
        intro nodes m e r h
        cases e with
        | lit v sp =>
            simp only [mvExpr, Option.some.injEq] at h
            subst h; exact covStep_refl _
        | ident n sp =>
            simp only [mvExpr, Option.some.injEq] at h
            subst h; exact covStep_refl _
        | call c1 args sp =>
            simp only [mvExpr, Option.pure_def, Option.bind_eq_bind, Option.some_bind,
              Option.bind_eq_some, Option.some.injEq] at h
            obtain ⟨⟨m1, c1'⟩, h1, ⟨m2, args'⟩, h2, h3⟩ := h
            subst h3
            have s1 := ihE _ _ _ _ h1
            have s2 := ihEL _ _ _ _ h2
            exact covStep_trans s1 s2
        | member obj prop sp =>
            simp only [mvExpr, Option.pure_def, Option.bind_eq_bind, Option.some_bind,
              Option.bind_eq_some, Option.some.injEq] at h
            obtain ⟨⟨m1, obj'⟩, h1, ⟨m2, prop'⟩, h2, h3⟩ := h
            subst h3
            have s1 := ihE _ _ _ _ h1
            have s2 := ihMP _ _ _ _ h2
            exact covStep_trans s1 s2
        | update uop pfx arg sp =>
            simp only [mvExpr, Option.pure_def, Option.bind_eq_bind, Option.some_bind,
              Option.bind_eq_some, Option.some.injEq] at h
            obtain ⟨⟨m1, arg'⟩, h1, h2⟩ := h
            subst h2
            have s1 := ihE _ _ _ _ h1
            exact s1
        | paren inner sp =>
            simp only [mvExpr, Option.pure_def, Option.bind_eq_bind, Option.some_bind,
              Option.bind_eq_some, Option.some.injEq] at h
            obtain ⟨⟨m1, inner'⟩, h1, h2⟩ := h
            subst h2
            have s1 := ihE _ _ _ _ h1
            exact s1
        | seq exprs sp =>
            simp only [mvExpr, Option.pure_def, Option.bind_eq_bind, Option.some_bind,
              Option.bind_eq_some, Option.some.injEq] at h
            obtain ⟨⟨m1, exprs'⟩, h1, h2⟩ := h
            subst h2
            have s1 := ihEL _ _ _ _ h1
            exact s1
        | bin op lhs rhs sp =>
            by_cases hop : op.isLogical
            · simp only [mvExpr, hop, if_true, hIg, Cov.new_branch] at h
              simp only [reduceCtorEq, if_false, Option.some.injEq] at h
              subst h
              exact binRuleCovStep ctx m.cov
                (get_range_from_span ctx.lookup sp) lhs rhs
            · simp only [mvExpr, hop, Bool.false_eq_true, if_false,
                Option.pure_def, Option.bind_eq_bind, Option.bind_eq_some,
                Option.some.injEq] at h
              obtain ⟨⟨m1, lhs'⟩, h1, ⟨m2, rhs'⟩, h2, h3⟩ := h
              subst h3
              have s1 := ihE _ _ _ _ h1
              have s2 := ihE _ _ _ _ h2
              exact covStep_trans s1 s2
        | fnExpr body bodySp sp =>
            simp only [mvExpr, Option.pure_def, Option.bind_eq_bind, Option.some_bind,
              Option.bind_eq_some, Option.some.injEq] at h
            obtain ⟨⟨cov2, body2⟩, h1, h2⟩ := h
            subst h2
            have s1 := ihI _ _ _ _ h1
            exact covStep_trans (covStep_of_eq rfl) s1
      · -- mvExprList
        intro nodes m es r h
        cases es with
        | nil =>
            simp only [mvExprList, Option.some.injEq] at h
            subst h; exact covStep_refl _
        | cons e rest =>
            simp only [mvExprList, Option.pure_def, Option.bind_eq_bind, Option.some_bind,
              Option.bind_eq_some, Option.some.injEq] at h
            obtain ⟨⟨m1, e'⟩, h1, ⟨m2, rest'⟩, h2, h3⟩ := h
            subst h3
            have s1 := ihE _ _ _ _ h1
            have s2 := ihEL _ _ _ _ h2
            exact covStep_trans s1 s2
      · -- mvMemberProp
        intro nodes m p r h
        cases p with
        | propIdent n =>
            simp only [mvMemberProp, Option.some.injEq] at h
            subst h; exact covStep_refl _
        | computed e =>
            simp only [mvMemberProp, Option.pure_def, Option.bind_eq_bind, Option.some_bind,
              Option.bind_eq_some, Option.some.injEq] at h
            obtain ⟨⟨m1, e'⟩, h1, h2⟩ := h
            subst h2
            have s1 := ihE _ _ _ _ h1
            exact s1
      · -- mvOptExpr
        intro nodes m oe r h
        cases oe with
        | none =>
            simp only [mvOptExpr, Option.some.injEq] at h
            subst h; exact covStep_refl _
        | some e =>
            simp only [mvOptExpr, Option.pure_def, Option.bind_eq_bind, Option.some_bind,
              Option.bind_eq_some, Option.some.injEq] at h
            obtain ⟨⟨m1, e'⟩, h1, h2⟩ := h
            subst h2
            have s1 := ihE _ _ _ _ h1
            exact s1
      · -- mvStmtChildren
        intro nodes m s r h
        cases s with
        | exprStmt e sp =>
            simp only [mvStmtChildren, hIg, Option.pure_def,
              Option.bind_eq_bind, Option.bind_eq_some,
              Option.some.injEq] at h
            obtain ⟨⟨m2, e'⟩, h1, h2⟩ := h
            subst h2
            have s1 := ihE _ _ _ _ h1
            refine covStep_trans (covStep_of_eq ?_) s1
            split <;> rfl
        | ret arg sp =>
            simp only [mvStmtChildren, Option.pure_def, Option.bind_eq_bind, Option.some_bind,
              Option.bind_eq_some, Option.some.injEq] at h
            obtain ⟨⟨m2, arg'⟩, h1, h2⟩ := h
            subst h2
            have s1 := ihOE _ _ _ _ h1
            exact covStep_trans (covStep_of_eq rfl) s1
        | block body sp =>
            simp only [mvStmtChildren, Option.pure_def, Option.bind_eq_bind, Option.some_bind,
              Option.bind_eq_some, Option.some.injEq] at h
            obtain ⟨⟨cov2, body'⟩, h1, h2⟩ := h
            subst h2
            have s1 := ihI _ _ _ _ h1
            exact s1
        | varDecl decls sp =>
            simp only [mvStmtChildren, Option.pure_def, Option.bind_eq_bind, Option.some_bind,
              Option.bind_eq_some, Option.some.injEq] at h
            obtain ⟨⟨m2, decls'⟩, h1, h2⟩ := h
            subst h2
            have s1 := ihD _ _ _ _ h1
            exact s1
        | ifStmt test conseq alt sp =>
            cases alt with
            | some a =>
                simp only [mvStmtChildren, hIg, reduceCtorEq, if_false,
                  Cov.new_branch, Option.pure_def, Option.bind_eq_bind, Option.some_bind,
                  Option.bind_eq_some, Option.some.injEq] at h
                obtain ⟨⟨covC, conseq'⟩, hC, ⟨covA, a'⟩, hA,
                  ⟨m2, test'⟩, hT, hfin⟩ := h
                subst hfin
                have hWC := ihW _ _ _ _ _ _ (by simp) hC
                have hWA := ihW _ _ _ _ _ _
                  (by
                    have := hWC.1
                    simp only [List.length_append, List.length_cons,
                      List.length_nil] at this ⊢
                    omega) hA
                exact ifRuleCovStep rfl hWC hWA (ihE _ _ _ _ hT)
            | none =>
                simp only [mvStmtChildren, hIg, reduceCtorEq, if_false,
                  Cov.new_branch, Option.pure_def, Option.bind_eq_bind, Option.some_bind,
                  Option.bind_eq_some, Option.some.injEq] at h
                obtain ⟨⟨covC, conseq'⟩, hC, ⟨covA, a'⟩, hA,
                  ⟨m2, test'⟩, hT, hfin⟩ := h
                subst hfin
                have hWC := ihW _ _ _ _ _ _ (by simp) hC
                have hWA := ihW _ _ _ _ _ _
                  (by
                    have := hWC.1
                    simp only [List.length_append, List.length_cons,
                      List.length_nil] at this ⊢
                    omega) hA
                exact ifRuleCovStep rfl hWC hWA (ihE _ _ _ _ hT)
      · -- mvDeclList
        intro nodes m ds r h
        cases ds with
        | nil =>
            simp only [mvDeclList, Option.some.injEq] at h
            subst h; exact covStep_refl _
        | cons init dsp rest =>
            cases init with
            | none =>
                simp only [mvDeclList, hIg, Option.pure_def,
                  Option.bind_eq_bind, Option.some_bind, Option.bind_eq_some,
                  Option.some.injEq] at h
                obtain ⟨⟨m2, init2⟩, h2, ⟨m3, rest'⟩, h3, hfin⟩ := h
                subst hfin
                have s1 := ihOE _ _ _ _ h2
                have s2 := ihD _ _ _ _ h3
                exact covStep_trans s1 s2
            | some e =>
                simp only [mvDeclList, hIg, Option.pure_def,
                  Option.bind_eq_bind, Option.some_bind, Option.bind_eq_some,
                  Option.some.injEq] at h
                obtain ⟨⟨mc, ec⟩, hcs, ⟨m2, init2⟩, h2,
                  ⟨m3, rest'⟩, h3, hfin⟩ := h
                subst hfin
                have s1 := ihOE _ _ _ _ h2
                have s2 := ihD _ _ _ _ h3
                exact covStep_trans
                  (covStep_of_eq (cover_statement_branchMap _ _ _ _ _ _ hcs))
                  (covStep_trans s1 s2)
      · -- insertStmtsCounter
        intro nodes cov sl r h
        cases sl with
        | nil =>
            simp only [insertStmtsCounter, Option.some.injEq] at h
            subst h; exact covStep_refl _
        | cons s rest =>
            by_cases hinj : is_injected_counter_stmt ctx.covFnIdent s
            · simp only [insertStmtsCounter, hinj, if_true, Option.pure_def,
                Option.bind_eq_bind, Option.some_bind, Option.bind_eq_some,
                Option.some.injEq] at h
              obtain ⟨⟨cov1, rest'⟩, h1, hfin⟩ := h
              subst hfin
              have s1 := ihI _ _ _ _ h1
              exact s1
            · simp only [insertStmtsCounter, hinj, Bool.false_eq_true,
                if_false, Option.pure_def, Option.bind_eq_bind, Option.some_bind,
                Option.bind_eq_some, Option.some.injEq] at h
              obtain ⟨⟨m1, s'⟩, h1, ⟨cov2, rest'⟩, h2, hfin⟩ := h
              subst hfin
              have s1 := ihS _ _ _ _ h1
              have s2 := ihI _ _ _ _ h2
              exact covStep_trans s1 s2
      · -- wrapWithCounter
        intro nodes b rg cov s r hb h
        cases s with
        | block stmts bsp =>
            simp only [wrapWithCounter, Option.pure_def, Option.bind_eq_bind, Option.some_bind,
              Option.bind_eq_some, Option.some.injEq] at h
            obtain ⟨⟨cov2, stmts'⟩, h1, hfin⟩ := h
            subst hfin
            have s1 := ihI _ _ _ _ h1
            exact wrapKept_assemble cov b rg cov2 hb s1
        | exprStmt e sp =>
            simp only [wrapWithCounter, Option.pure_def, Option.bind_eq_bind, Option.some_bind,
              Option.bind_eq_some, Option.some.injEq] at h
            obtain ⟨⟨m1, s'⟩, h1, hfin⟩ := h
            subst hfin
            have s1 := ihS _ _ _ _ h1
            exact wrapKept_assemble cov b rg m1.cov hb s1
        | ret arg sp =>
            simp only [wrapWithCounter, Option.pure_def, Option.bind_eq_bind, Option.some_bind,
              Option.bind_eq_some, Option.some.injEq] at h
            obtain ⟨⟨m1, s'⟩, h1, hfin⟩ := h
            subst hfin
            have s1 := ihS _ _ _ _ h1
            exact wrapKept_assemble cov b rg m1.cov hb s1
        | ifStmt test conseq alt sp =>
            simp only [wrapWithCounter, Option.pure_def, Option.bind_eq_bind, Option.some_bind,
              Option.bind_eq_some, Option.some.injEq] at h
            obtain ⟨⟨m1, s'⟩, h1, hfin⟩ := h
            subst hfin
            have s1 := ihS _ _ _ _ h1
            exact wrapKept_assemble cov b rg m1.cov hb s1
        | varDecl decls sp =>
            simp only [wrapWithCounter, Option.pure_def, Option.bind_eq_bind, Option.some_bind,
              Option.bind_eq_some, Option.some.injEq] at h
            obtain ⟨⟨m1, s'⟩, h1, hfin⟩ := h
            subst hfin
            have s1 := ihS _ _ _ _ h1
            exact wrapKept_assemble cov b rg m1.cov hb s1

/-- Context for the C5 counterexample: an `istanbul ignore if` hint sits on
the `if` statement's span. -/
def c5Ctx : MCtx :=
  ⟨fun off => ⟨1, off⟩, "cov_1", ⟨"__coverage__", false, false⟩,
   fun sp => if sp = ⟨0, 12⟩ then Option.some .ifS else Option.none⟩

/-- Counterexample for C5 as stated: under an `istanbul ignore if` hint, the
consequent path is not allocated, so the `If` entry in the branch map ends
the pass with exactly one location, not two. -/
theorem C5_ignored_if_one_path :
    (mvStmtChildren c5Ctx 20 [] ⟨Cov.new "t.js" false, .nil⟩
        (.ifStmt (.ident "a" ⟨4, 5⟩)
          (.exprStmt (.call (.ident "b" ⟨7, 8⟩) .nil ⟨7, 10⟩) ⟨7, 11⟩)
          .none ⟨0, 12⟩)).map
        (fun r => r.1.cov.branchMap.map
          (fun en => (en.btype, en.locations.length)))
      = Option.some [(BranchType.ifKind, 1)] ∧ (1 : Nat) ≠ 2 :=
  ⟨rfl, by decide⟩

/-- Witness for C10: a context whose `filename` is present but numeric. -/
theorem C10_filename_fallback_w :
    ((Json.obj [("filename", Json.num 3)]).index "filename").as_str
      = Option.none ∧
    (process (Option.some (Json.obj [("filename", Json.num 3)]))
        (Option.some (Json.obj [])) Option.none (fun off => ⟨1, off⟩)
        ⟨StmtList.nil, ⟨0, 0⟩⟩).map ProcessOut.filename
      = Option.some "unknown.js" ∧
    (process (Option.some (Json.obj [("filename", Json.num 3)]))
        (Option.some (Json.obj [])) Option.none (fun off => ⟨1, off⟩)
        ⟨StmtList.nil, ⟨0, 0⟩⟩).map ProcessOut.var_name
      = Option.some (get_var_name_hash "unknown.js") :=
  ⟨rfl,
   (C10_filename_fallback (Json.obj [("filename", Json.num 3)])
     (Json.obj []) Option.none (fun off => ⟨1, off⟩)
     ⟨StmtList.nil, ⟨0, 0⟩⟩ rfl).1,
   (C10_filename_fallback (Json.obj [("filename", Json.num 3)])
     (Json.obj []) Option.none (fun off => ⟨1, off⟩)
     ⟨StmtList.nil, ⟨0, 0⟩⟩ rfl).2.1⟩

/-- The macro pass entry: `visit_mut_program` hands the program's statement
list to `insert_stmts_counter` over a fresh `SourceCoverage::new(path,
report_logic)` at the `Program → Stmts` path. -/
def runMacroPass (ctx : MCtx) (fuel : Nat) (path : String) (sl : StmtList) :
    Option (Cov × StmtList) :=
  insertStmtsCounter ctx fuel [Node.program, Node.stmts]
    (Cov.new path ctx.opts.report_logic) sl

/-- C5: amended branch-path invariant. For a context with no ignore hints in
scope and `reportLogic` disabled: (a) after the pass, every `If` entry of the
branch map has exactly two locations (consequent and alternate, the latter
also when the alternate is absent); (b) the logical-expression rule allocates
exactly one new `BinaryExpr` entry, at the end of the branch map, with one
location per leaf operand of the pure, spanned logical chain. As stated the
claim fails: an `istanbul ignore if` (or `else`) hint suppresses that arm's
path, leaving the `If` entry with one location — see the counterexample. -/
theorem C5_branch_paths (ctx : MCtx)
    (hIg : ∀ sp, ctx.shouldIgnore sp = Option.none)
    (hrl : ctx.opts.report_logic = false) :
    (∀ fuel path sl r, runMacroPass ctx fuel path sl = Option.some r →
      ∀ (i : Nat) (en : BranchEntry), r.1.branchMap[i]? = Option.some en →
        en.btype = BranchType.ifKind → en.locations.length = 2) ∧
    (∀ f nodes m op l rr sp r,
      op.isLogical = true → isChain op l = true → isChain op rr = true →
      mvExpr ctx (f + 1) nodes m (Expr.bin op l rr sp) = Option.some r →
      r.1.cov.branchMap.length = m.cov.branchMap.length + 1 ∧
      ∃ en : BranchEntry, r.1.cov.branchMap[m.cov.branchMap.length]? = Option.some en ∧
        en.btype = BranchType.binaryExpr ∧
        en.locations.length = leafCount op l + leafCount op rr) := by
  constructor
  · intro fuel path sl r h i en hi hif
    unfold runMacroPass at h
    have hstep := (mvCovStep ctx hIg fuel).2.2.2.2.2.2.1 _ _ _ _ h
    exact hstep.2 i en (Nat.zero_le i) hi hif
  · intro f nodes m op l rr sp r hop hcl hcr h
    simp only [mvExpr] at h
    rw [if_pos hop, hIg sp] at h
    rw [if_neg (fun hc => Option.noConfusion hc)] at h
    simp only [Option.some.injEq] at h
    subst h
    have hget0 : (m.cov.new_branch BranchType.binaryExpr
        (get_range_from_span ctx.lookup sp)
        ctx.opts.report_logic).1.branchMap[m.cov.branchMap.length]?
        = Option.some ⟨BranchType.binaryExpr,
            get_range_from_span ctx.lookup sp, []⟩ := by
      show (m.cov.branchMap ++ [_])[m.cov.branchMap.length]? = _
      exact List.getElem?_concat_length _ _
    obtain ⟨locs1, h1, hlen1⟩ := wrapBin_chain_count l ctx op
      m.cov.branchMap.length _ _ hrl hop hcl hget0
    obtain ⟨locs2, h2, hlen2⟩ := wrapBin_chain_count rr ctx op
      m.cov.branchMap.length _ _ hrl hop hcr h1
    refine ⟨?_, _, h2, rfl, by simp [hlen1, hlen2]⟩
    rw [(wrapBin_shape ctx _ rr _).1, (wrapBin_shape ctx _ l _).1]
    simp [Cov.new_branch]

/-- Context for the C5 witness: positions on line 1, no ignore hints. -/
def w5Ctx : MCtx :=
  ⟨fun off => ⟨1, off⟩, "cov_1", ⟨"__coverage__", false, false⟩,
   fun _ => Option.none⟩

/-- Program for the C5 witness: `if (a) b();` with no alternate. -/
def w5Prog : StmtList :=
  .cons (.ifStmt (.ident "a" ⟨4, 5⟩)
      (.exprStmt (.call (.ident "b" ⟨7, 8⟩) .nil ⟨7, 10⟩) ⟨7, 11⟩)
      .none ⟨0, 12⟩)
    .nil

/-- The C5 witness run's result. -/
def w5Run : Cov × StmtList :=
  (runMacroPass w5Ctx 30 "t.js" w5Prog).getD (Cov.new "t.js" false, .nil)

/-- The C5 witness run's first branch entry. -/
def w5Entry : BranchEntry :=
  (w5Run.1.branchMap[0]?).getD ⟨BranchType.ifKind, ⟨1, 0, 1, 0⟩, []⟩

/-- Witness for C5: on a concrete `if` statement with no ignore hints, the
pass succeeds and its `If` branch entry ends with exactly two locations. -/
theorem C5_branch_paths_w :
    runMacroPass w5Ctx 30 "t.js" w5Prog = Option.some w5Run ∧
    w5Run.1.branchMap[0]? = Option.some w5Entry ∧
    w5Entry.btype = BranchType.ifKind ∧
    w5Entry.locations.length = 2 :=
  ⟨rfl, rfl, rfl,
   (C5_branch_paths w5Ctx (fun _ => rfl) rfl).1 30 "t.js" w5Prog w5Run rfl
     0 w5Entry rfl rfl⟩

end CoverageInstr
